import Mathlib

/-!
Verification of oget: keyed salted hashing, login handshake and request
rewriting.

A shallow embedding of `src/up/ksh/keyedsaltedhashing.go` and of the
functions `doRequest`, `login`, `logout` and `getChallenge` of
`src/oget/main.go`.

* A Go `byte` is a natural number below 256; a `[]byte` and a Go `string`
  are both lists of bytes (`Bytes`), so `[]byte(s)` is the identity.
* The hash primitive behind `hash.Hash` (SHA-1 in `NewSha1`) comes from the
  Go standard library; it is a parameter `H : Bytes → Bytes` here, and the
  hash object is the list of bytes written since the last `Reset`.
* `client.Do` is a function of the requests issued so far and of the
  current request; it returns a response or a transport error, and every
  call is appended to a trace.
* `http.NewRequest` is part of the library: whether it returns a request
  for a method and a URL string is a parameter. Where the source ignores
  its error and goes on with the nil request, the run panics.
* `AddCookie` sets the `Cookie` header to the sanitised `name=value`.
* `log.Fatal` and a runtime panic end the run; they are the error side of
  an `Except`. Log lines and printed output are left out.
-/

namespace Oget

/-- A byte string: the content of a Go `[]byte` or of a Go `string`. -/
abbrev Bytes := List Nat

/-- The bytes of an ASCII literal. -/
def str (s : String) : Bytes := s.toList.map Char.toNat

/-! ## Package ksh -/

namespace Ksh

/-- The state of a `hash.Hash`: the bytes written since the last `Reset`. -/
structure Hash where
  written : Bytes
deriving Repr, DecidableEq

/-- `hash.Hash.Reset`. -/
def Hash.Reset (_h : Hash) : Hash := ⟨[]⟩

/-- `hash.Hash.Write`. -/
def Hash.Write (h : Hash) (p : Bytes) : Hash := ⟨h.written ++ p⟩

/-- `hash.Hash.Sum(nil)`: the digest of what was written; the state is kept. -/
def Hash.Sum (H : Bytes → Bytes) (h : Hash) : Bytes := H h.written

/-- One round of the loop of lines 53-56: `ipad[i] ^= hashedPwd[i]` and
`opad[i] ^= hashedPwd[i]`; an index outside a pad is a runtime panic. -/
def xorStep (hashedPwd : Bytes) (pads : Bytes × Bytes) (i : Nat) : Option (Bytes × Bytes) :=
  match pads.1[i]?, pads.2[i]?, hashedPwd[i]? with
  | some a, some b, some k => some (pads.1.set i (a ^^^ k), pads.2.set i (b ^^^ k))
  | _, _, _ => none

/-- `KeyedSaltedHashing.MakeDigest` (lines 39-70), with the final state of
the embedded hash; `none` is the index-out-of-range panic of line 54. -/
def MakeDigestSt (H : Bytes → Bytes) (h0 : Hash) (pwd salt key : Bytes) : Option (Bytes × Hash) :=
  let h1 := h0.Reset
  let h2 := h1.Write pwd
  let h3 := h2.Write salt
  let hashedPwd := h3.Sum H
  let ipad := List.replicate 64 0x36
  let opad := List.replicate 64 0x5C
  match (List.range hashedPwd.length).foldlM (xorStep hashedPwd) (ipad, opad) with
  | none => none
  | some (ipad, opad) =>
    let h4 := h3.Reset
    let h5 := h4.Write ipad
    let h6 := h5.Write key
    let arTmp := h6.Sum H
    let h7 := h6.Reset
    let h8 := h7.Write opad
    let h9 := h8.Write arTmp
    let digest := h9.Sum H
    some (digest, h9)

/-- `MakeDigest` on the fresh hash object of `NewSha1`. -/
def MakeDigest (H : Bytes → Bytes) (pwd salt key : Bytes) : Option Bytes :=
  (MakeDigestSt H ⟨[]⟩ pwd salt key).map Prod.fst

/-- The pad the specification describes: 64 bytes, byte `i` is
`fill xor hashedPwd[i]` below `len(hashedPwd)` and `fill` from there on. -/
def specPad (fill : Nat) (hashedPwd : Bytes) : Bytes :=
  (List.range 64).map fun i =>
    match hashedPwd[i]? with
    | some k => fill ^^^ k
    | none => fill

/-- Standard HMAC (RFC 2104) with block size 64: a key longer than the block
is hashed first, the key is zero-padded to 64 bytes, and the padded key is
XORed with 0x36 (inner) and 0x5C (outer). -/
def hmacStandard (H : Bytes → Bytes) (key msg : Bytes) : Bytes :=
  let k0 := if 64 < key.length then H key else key
  let k := k0 ++ List.replicate (64 - k0.length) 0
  H (k.map (fun b => b ^^^ 0x5C) ++ H (k.map (fun b => b ^^^ 0x36) ++ msg))

/-- A small stand-in hash with a 20-byte output, for evaluating examples. -/
def toyHash (x : Bytes) : Bytes :=
  (List.range 20).map fun i => x.foldl (fun a b => (a * 31 + b + i) % 256) i

/-- The pads after `k` rounds of the loop of lines 53-56. -/
def padUpTo (fill : Nat) (hashedPwd : Bytes) (k : Nat) : Bytes :=
  (List.range 64).map fun i =>
    if i < k then
      match hashedPwd[i]? with
      | some x => fill ^^^ x
      | none => fill
    else fill

end Ksh

/-! ## Go standard library functions used by main.go

Each model follows the documented behaviour of the library function for the
arguments `main.go` passes: the separators of `Contains`, `LastIndex`,
`Split` and `Replace` are one byte long. -/

namespace Strings

/-- `strings.Contains(s, sep)` for a one-byte `sep`. -/
def Contains (s : Bytes) (sep : Nat) : Bool := s.contains sep

/-- `strings.LastIndex(s, sep)` for a one-byte `sep`: the index of the last
occurrence, or -1. -/
def LastIndex : Bytes → Nat → Int
  | [], _ => -1
  | b :: bs, sep =>
    if 0 ≤ LastIndex bs sep then LastIndex bs sep + 1
    else if b = sep then 0
    else -1

/-- The slice expression `s[0:hi]`; `none` is the out-of-range panic. -/
def sliceTo (s : Bytes) (hi : Int) : Option Bytes :=
  if 0 ≤ hi ∧ hi ≤ s.length then some (s.take hi.toNat) else none

/-- The slice expression `s[lo:]`; `none` is the out-of-range panic. -/
def sliceFrom (s : Bytes) (lo : Int) : Option Bytes :=
  if 0 ≤ lo ∧ lo ≤ s.length then some (s.drop lo.toNat) else none

/-- `strings.Split(s, sep)` for a one-byte `sep`. -/
def Split : Bytes → Nat → List Bytes
  | [], _ => [[]]
  | b :: bs, sep =>
    if b = sep then [] :: Split bs sep
    else
      match Split bs sep with
      | [] => [[b]]
      | f :: fs => (b :: f) :: fs

/-- `strings.Replace(s, old, new, -1)` for a one-byte `old`. -/
def Replace : Bytes → Nat → Bytes → Bytes
  | [], _, _ => []
  | b :: bs, old, new =>
    if b = old then new ++ Replace bs old new else b :: Replace bs old new

/-- `strings.ToUpper` on an ASCII string (the only use is on the output of
`hex.EncodeToString`). -/
def ToUpper (s : Bytes) : Bytes :=
  s.map fun c => if 97 ≤ c ∧ c ≤ 122 then c - 32 else c

end Strings

namespace Hex

/-- The table `hextable` of `encoding/hex`. -/
def hextable : Bytes := str "0123456789abcdef"

/-- `hex.EncodeToString`: `hextable[v>>4]` then `hextable[v&0x0f]` for each byte. -/
def EncodeToString (src : Bytes) : Bytes :=
  src.flatMap fun v => [hextable.getD (v >>> 4) 0, hextable.getD (v &&& 0x0f) 0]

/-- `fromHexChar` of `encoding/hex`. -/
def fromHexChar (c : Nat) : Option Nat :=
  if 48 ≤ c ∧ c ≤ 57 then some (c - 48)
  else if 97 ≤ c ∧ c ≤ 102 then some (c - 97 + 10)
  else if 65 ≤ c ∧ c ≤ 70 then some (c - 65 + 10)
  else none

/-- `hex.DecodeString`; `none` is its error result. -/
def DecodeString : Bytes → Option Bytes
  | [] => some []
  | [_] => none
  | a :: b :: rest =>
    match fromHexChar a, fromHexChar b, DecodeString rest with
    | some x, some y, some r => some (((x <<< 4) ||| y) :: r)
    | _, _, _ => none

end Hex

namespace Base64

/-- The alphabet of `base64.StdEncoding`. -/
def encodeStd : Bytes :=
  str "ABCDEFGHIJKLMNOPQRSTUVWXYZabcdefghijklmnopqrstuvwxyz0123456789+/"

/-- One output character. -/
def enc (n : Nat) : Nat := encodeStd.getD n 0

/-- `base64.StdEncoding.EncodeToString` (padding character `=`). -/
def EncodeToString : Bytes → Bytes
  | [] => []
  | [a] => [enc (a >>> 2), enc ((a &&& 3) <<< 4), 61, 61]
  | [a, b] =>
    [enc (a >>> 2), enc (((a &&& 3) <<< 4) ||| (b >>> 4)), enc ((b &&& 15) <<< 2), 61]
  | a :: b :: c :: rest =>
    [enc (a >>> 2), enc (((a &&& 3) <<< 4) ||| (b >>> 4)),
      enc (((b &&& 15) <<< 2) ||| (c >>> 6)), enc (c &&& 63)] ++ EncodeToString rest

end Base64

/-! ## Package main: the HTTP model -/

/-- An `http.Cookie`: name and value. -/
structure Cookie where
  Name : Bytes
  Value : Bytes
deriving Repr, DecidableEq

/-- An `http.Request` as `main.go` builds it. `url` is the string given to
`http.NewRequest`; `opaquePath` is `req.URL.Opaque`; `rawQuery` is `some q`
once `req.URL.RawQuery` has been assigned `q`; `header` is `req.Header`,
key and value, in the order the values were stored. -/
structure Request where
  method : Bytes
  url : Bytes
  opaquePath : Bytes := []
  rawQuery : Option Bytes := none
  header : List (Bytes × Bytes) := []
deriving Repr, DecidableEq

/-- An `http.Response`: status code, headers, the cookies `resp.Cookies()`
returns, and the body. -/
structure Response where
  StatusCode : Int
  header : List (Bytes × Bytes) := []
  cookies : List Cookie := []
  body : Bytes := []
deriving Repr, DecidableEq

/-- `Header.Get`: the first value stored under the key, or the empty string. -/
def headerGet (header : List (Bytes × Bytes)) (key : Bytes) : Bytes :=
  match header.find? (fun kv => kv.1 = key) with
  | some kv => kv.2
  | none => []

/-- `Header.Add`: one more value under the key. -/
def headerAdd (header : List (Bytes × Bytes)) (key value : Bytes) : List (Bytes × Bytes) :=
  header ++ [(key, value)]

/-- `Header.Set`: the value replaces what was stored under the key. -/
def headerSet (header : List (Bytes × Bytes)) (key value : Bytes) : List (Bytes × Bytes) :=
  header.filter (fun kv => kv.1 ≠ key) ++ [(key, value)]

/-- `resp.Header.Get`. -/
def Response.Get (resp : Response) (key : Bytes) : Bytes := headerGet resp.header key

/-- Every request given to `client.Do`, oldest first. -/
abbrev Trace := List Request

/-- The `net/http` library and the network behind it. `accepts method url`
tells whether `http.NewRequest(method, url, nil)` returns a request; when it
does not, it returns a nil request and an error. `Do` is `client.Do`: from
the requests issued before and the current request to a response or a
transport error. -/
structure Net where
  accepts : Bytes → Bytes → Bool
  Do : Trace → Request → Except Bytes Response

/-- `http.NewRequest(method, url, nil)`; `none` is the nil request that comes
with an error. -/
def NewRequest (net : Net) (method url : Bytes) : Option Request :=
  if net.accepts method url then some { method := method, url := url } else none

/-- `validCookieValueByte` of `net/http`. -/
def validCookieValueByte (b : Nat) : Bool :=
  decide (0x20 ≤ b) && decide (b < 0x7f) && b != 34 && b != 59 && b != 92

/-- `sanitizeCookieName` of `net/http`: line feed and carriage return become `-`. -/
def sanitizeCookieName (n : Bytes) : Bytes :=
  n.map fun b => if b = 10 ∨ b = 13 then 45 else b

/-- `sanitizeCookieValue` of `net/http`: the invalid bytes are dropped, and a
value left with a blank or a comma is put between double quotes. -/
def sanitizeCookieValue (v : Bytes) : Bytes :=
  let kept := v.filter validCookieValueByte
  if kept = [] then kept
  else if kept.contains 32 || kept.contains 44 then 34 :: kept ++ [34]
  else kept

/-- `Request.AddCookie`: the sanitised `name=value` is set as the `Cookie`
header, after `"; "` when that header already has a value. -/
def AddCookie (r : Request) (c : Cookie) : Request :=
  let s := sanitizeCookieName c.Name ++ str "=" ++ sanitizeCookieValue c.Value
  if headerGet r.header (str "Cookie") = [] then
    { r with header := headerSet r.header (str "Cookie") s }
  else
    { r with header :=
        headerSet r.header (str "Cookie") (headerGet r.header (str "Cookie") ++ str "; " ++ s) }

/-- The ways a run ends early: `log.Fatal(err)` after a failed `client.Do`,
`log.Fatal(err)` after a failed `http.NewRequest` (line 204),
`log.Fatalf("Error: Login denied. (%d)", status)`,
`log.Fatalf("Error: Status %d", status)`, and a runtime panic. -/
inductive Fatal where
  | transport (err : Bytes)
  | newRequest
  | loginDenied (status : Int)
  | badStatus (status : Int)
  | panic
deriving Repr, DecidableEq

/-- The flag variables `serviceUrl` and `auth_type`. -/
structure Config where
  serviceUrl : Bytes
  auth_type : Bytes
deriving Repr, DecidableEq

/-- The loops of lines 227-231 and 271-275: every cookie named `co_SId`
overwrites `sessionId`. -/
def captureCookie (sessionId : Bytes) (cookies : List Cookie) : Bytes :=
  cookies.foldl (fun sid c => if c.Name = str "co_SId" then c.Value else sid) sessionId

/-! ### doRequest -/

/-- Lines 116-124 of `doRequest`: `path` and `qs`; `none` is a slice panic. -/
def splitQuery (urlStr : Bytes) : Option (Bytes × Bytes) :=
  if Strings.Contains urlStr 63 then
    match Strings.sliceTo urlStr (Strings.LastIndex urlStr 63),
        Strings.sliceFrom urlStr (Strings.LastIndex urlStr 63 + 1) with
    | some path, some qs => some (path, qs)
    | _, _ => none
  else some (urlStr, [])

/-- Lines 126-133 of `doRequest`: the new value of `path`. -/
def rewritePath (path : Bytes) : Bytes :=
  (Strings.Split path 47).enum.foldl
    (fun acc p => if 2 < p.1 then acc ++ str "/" ++ p.2 else acc) []

/-- Lines 136-148 of `doRequest`: what is set on the request that
`http.NewRequest` returned, `path` being the rewritten path. -/
def prepareRequest (req : Request) (path qs sessionId : Bytes) : Request :=
  let req := { req with opaquePath := path }
  let req :=
    if qs ≠ [] then { req with rawQuery := some (Strings.Replace qs 32 (str "%20")) }
    else req
  if sessionId ≠ [] then AddCookie req ⟨str "co_SId", sessionId⟩ else req

/-- Lines 126-176 of `doRequest`, from the values of `path` and `qs` that
lines 116-124 left. Line 135 ignores the error of `http.NewRequest`, and
line 136 dereferences the request: a nil request is a panic, before any
call. -/
def doRequestFrom (net : Net) (httpMethod urlStr sessionId : Bytes) (tr : Trace)
    (path qs : Bytes) : Trace × Except Fatal Response :=
  let path := rewritePath path
  match NewRequest net httpMethod urlStr with
  | none => (tr, .error .panic)
  | some req =>
    let req := prepareRequest req path qs sessionId
    match net.Do tr req with
    | .error e => (tr ++ [req], .error (.transport e))
    | .ok resp => (tr ++ [req], .ok resp)

/-- `doRequest` (lines 115-176): the trace afterwards and the response whose
header and body are printed. -/
def doRequest (net : Net) (httpMethod urlStr sessionId : Bytes) (tr : Trace) :
    Trace × Except Fatal Response :=
  match splitQuery urlStr with
  | none => (tr, .error .panic)
  | some (path, qs) => doRequestFrom net httpMethod urlStr sessionId tr path qs

/-! ### getChallenge, login, logout -/

/-- The request of lines 258-259, when `http.NewRequest` returns one. -/
def challengeRequest (cfg : Config) (username : Bytes) : Request :=
  { method := str "GET", url := cfg.serviceUrl ++ str "/$challenge",
    header := headerAdd [] (str "rq_username") username }

/-- `getChallenge` (lines 257-278): challenge, salt and session id. Line 258
ignores the error of `http.NewRequest`, and line 259 dereferences the
request: a nil request is a panic, before any call. -/
def getChallenge (cfg : Config) (net : Net) (username _pwd : Bytes) (tr : Trace) :
    Trace × Except Fatal (Bytes × Bytes × Bytes) :=
  match NewRequest net (str "GET") (cfg.serviceUrl ++ str "/$challenge") with
  | none => (tr, .error .panic)
  | some req =>
    let req := { req with header := headerAdd req.header (str "rq_username") username }
    match net.Do tr req with
    | .error e => (tr ++ [req], .error (.transport e))
    | .ok resp =>
      let challenge := resp.Get (str "Challenge")
      let salt := resp.Get (str "Salt")
      let sessionId := captureCookie [] resp.cookies
      (tr ++ [req], .ok (challenge, salt, sessionId))

/-- Lines 207-213 of `login`: the headers added to the request. -/
def loginHeaders (req : Request) (authb64 sessionId : Bytes) : Request :=
  let req :=
    if authb64 ≠ [] then
      { req with header := headerAdd req.header (str "Authorization") (str "Basic " ++ authb64) }
    else req
  if sessionId ≠ [] then
    { req with header := headerAdd req.header (str "Cookie") (str "co_SId=" ++ sessionId) }
  else req

/-- The request of lines 202-213, when `http.NewRequest` returns one. -/
def loginRequest (cfg : Config) (authb64 sessionId : Bytes) : Request :=
  loginHeaders { method := str "GET", url := cfg.serviceUrl ++ str "/" } authb64 sessionId

/-- Lines 180-200 of `login`: `authb64` and `sessionId` before the request. -/
def loginPrepare (H : Bytes → Bytes) (cfg : Config) (net : Net) (username pwd : Bytes)
    (tr : Trace) : Trace × Except Fatal (Bytes × Bytes) :=
  if cfg.auth_type = str "intrexx" then
    match getChallenge cfg net username pwd tr with
    | (tr1, .error e) => (tr1, .error e)
    | (tr1, .ok (challenge, salt, sId)) =>
      match Ksh.MakeDigest H pwd salt challenge with
      | none => (tr1, .error .panic)
      | some digest =>
        let digestHex := Strings.ToUpper (Hex.EncodeToString digest)
        let auth := username ++ str ":" ++ digestHex
        (tr1, .ok (Base64.EncodeToString auth, sId))
  else if cfg.auth_type = str "basic" then
    let auth := username ++ str ":" ++ pwd
    (tr, .ok (Base64.EncodeToString auth, []))
  else (tr, .ok ([], []))

/-- `login` (lines 179-234): the trace afterwards and the session id, or the
fatal exit. Lines 203-205 end the run when `http.NewRequest` fails. -/
def login (H : Bytes → Bytes) (cfg : Config) (net : Net) (username pwd : Bytes)
    (tr : Trace) : Trace × Except Fatal Bytes :=
  match loginPrepare H cfg net username pwd tr with
  | (tr1, .error e) => (tr1, .error e)
  | (tr1, .ok (authb64, sessionId)) =>
    match NewRequest net (str "GET") (cfg.serviceUrl ++ str "/") with
    | none => (tr1, .error .newRequest)
    | some req =>
      let req := loginHeaders req authb64 sessionId
      match net.Do tr1 req with
      | .error e => (tr1 ++ [req], .error (.transport e))
      | .ok resp =>
        if resp.StatusCode = 401 then (tr1 ++ [req], .error (.loginDenied resp.StatusCode))
        else if resp.StatusCode ≠ 200 then (tr1 ++ [req], .error (.badStatus resp.StatusCode))
        else (tr1 ++ [req], .ok (captureCookie sessionId resp.cookies))

/-- The request of lines 242-246, when `http.NewRequest` returns one. -/
def logoutRequest (cfg : Config) (sessionId : Bytes) : Request :=
  AddCookie { method := str "GET", url := cfg.serviceUrl ++ str "/$logout" }
    ⟨str "co_SId", sessionId⟩

/-- `logout` (lines 237-254). Line 242 ignores the error of
`http.NewRequest`, and line 246 calls `AddCookie` on the request: a nil
request is a panic, before any call. -/
def logout (cfg : Config) (net : Net) (sessionId : Bytes) (tr : Trace) :
    Trace × Except Fatal Unit :=
  if sessionId = [] then (tr, .ok ())
  else
    match NewRequest net (str "GET") (cfg.serviceUrl ++ str "/$logout") with
    | none => (tr, .error .panic)
    | some req =>
      let req := AddCookie req ⟨str "co_SId", sessionId⟩
      match net.Do tr req with
      | .error e => (tr ++ [req], .error (.transport e))
      | .ok _ => (tr ++ [req], .ok ())

/-! ## Definitions that follow the specification's wording -/

/-- Remove the first `n` non-empty segments of a list of segments, keeping
the empty segments met on the way. -/
def discardNonEmpty : Nat → List Bytes → List Bytes
  | 0, segs => segs
  | _ + 1, [] => []
  | n + 1, seg :: segs =>
    if seg = [] then seg :: discardNonEmpty (n + 1) segs else discardNonEmpty n segs

/-- The path rewriting as the specification words it: split on `/`, discard
the first two non-empty leading segments, rejoin the rest with `/`. -/
def specRewritePath (path : Bytes) : Bytes :=
  (str "/").intercalate (discardNonEmpty 2 (Strings.Split path 47))

/-- A second reading of the same words: drop leading segments until two
non-empty ones are gone (empty ones before them too), then put a `/` in
front of every segment left. -/
def dropLeading : Nat → List Bytes → List Bytes
  | 0, segs => segs
  | _ + 1, [] => []
  | n + 1, seg :: segs =>
    if seg = [] then dropLeading (n + 1) segs else dropLeading n segs

/-- The rewriting under the second reading. -/
def specRewritePathAlt (path : Bytes) : Bytes :=
  (dropLeading 2 (Strings.Split path 47)).flatMap fun seg => str "/" ++ seg

/-- The query replacement as the specification words it: every space becomes
`%20`, every other byte stays, in order. -/
def specEscapeQuery (query : Bytes) : Bytes :=
  query.flatMap fun c => if c = 32 then str "%20" else [c]

/-- `resp` is the answer to the login request of a run of `login` that
started with the trace `tr`: the last request the run issued goes to
`{serviceUrl}/`, and `client.Do` returned `resp` for it. -/
def IsLoginResponse (cfg : Config) (net : Net) (tr : Trace) (run : Trace × Except Fatal Bytes)
    (resp : Response) : Prop :=
  ∃ (before : Trace) (req : Request),
    run.1 = tr ++ before ++ [req] ∧ req.url = cfg.serviceUrl ++ str "/" ∧
      net.Do (tr ++ before) req = .ok resp

/-- The value of the last `co_SId` cookie of a response, empty if there is none. -/
def cookieOf (resp : Response) : Bytes := captureCookie [] resp.cookies

/-! ## Sample configurations and servers -/

/-- A service root with Intrexx (challenge) authentication. -/
def cfgIntrexx : Config := ⟨str "http://h/s.svc", str "intrexx"⟩

/-- The same service root with basic authentication. -/
def cfgBasic : Config := ⟨str "http://h/s.svc", str "basic"⟩

/-- A service root with a blank in the host, which `http.NewRequest` rejects. -/
def cfgBlankHost : Config := ⟨str "http://h x/s.svc", str "intrexx"⟩

/-- A sample of what `http.NewRequest` accepts: the method `GET` and a URL of
printable ASCII bytes without `%`, with blanks only after the first `?`. -/
def acceptsPlain (method url : Bytes) : Bool :=
  method == str "GET" &&
    url.all (fun b => decide (0x20 ≤ b) && decide (b ≤ 0x7e) && b != 37) &&
    (url.takeWhile (fun b => b != 63)).all (fun b => b != 32)

/-- A challenge response: `Challenge: chal99`, `Salt: ab12` and the cookie
`co_SId=abc`. -/
def respChallenge : Response :=
  { StatusCode := 200,
    header := [(str "Challenge", str "chal99"), (str "Salt", str "ab12")],
    cookies := [⟨str "co_SId", str "abc"⟩] }

/-- A response with status 200, no header and no cookie. -/
def respOk : Response := { StatusCode := 200 }

/-- A response with status 401. -/
def respDenied : Response := { StatusCode := 401 }

/-- A server whose every call fails in transport. -/
def netDown : Net := ⟨acceptsPlain, fun _ _ => .error (str "connection refused")⟩

/-- A server that answers every call with `respDenied`. -/
def netDenied : Net := ⟨acceptsPlain, fun _ _ => .ok respDenied⟩

/-- A server that answers the first call (the challenge) with `respChallenge`
and every later call (the login) with `respOk`. -/
def netChallengeCookie : Net :=
  ⟨acceptsPlain, fun tr _ =>
    match tr with
    | [] => .ok respChallenge
    | _ :: _ => .ok respOk⟩

/-! ## Theorems: package ksh -/

namespace Ksh

theorem padUpTo_length (fill : Nat) (hp : Bytes) (k : Nat) : (padUpTo fill hp k).length = 64 := by
  simp [padUpTo]

theorem padUpTo_zero (fill : Nat) (hp : Bytes) : padUpTo fill hp 0 = List.replicate 64 fill := by
  apply List.ext_getElem
  · simp [padUpTo]
  · intro i h1 h2
    simp [padUpTo]

theorem padUpTo_full (fill : Nat) (hp : Bytes) (k : Nat) (hk : hp.length ≤ k) :
    padUpTo fill hp k = specPad fill hp := by
  unfold padUpTo specPad
  apply List.map_congr_left
  intro i _
  by_cases h : i < k
  · simp [h]
  · have : hp[i]? = none := by
      apply List.getElem?_eq_none
      omega
    simp [h, this]

theorem padUpTo_succ (fill : Nat) (hp : Bytes) (k x : Nat) (hx : hp[k]? = some x) :
    (padUpTo fill hp k).set k (fill ^^^ x) = padUpTo fill hp (k + 1) := by
  apply List.ext_getElem
  · simp [padUpTo]
  · intro i h1 h2
    have hi : i < 64 := by simpa [padUpTo] using h2
    rw [List.getElem_set]
    by_cases hik : k = i
    · subst hik
      simp [padUpTo, hx]
    · have h3 : (i < k + 1) = (i < k) := by
        apply propext
        omega
      simp [hik, padUpTo, h3]

theorem xorStep_padUpTo (hp : Bytes) (k : Nat) (hk : k < hp.length) (hk64 : k < 64) :
    xorStep hp (padUpTo 0x36 hp k, padUpTo 0x5C hp k) k
      = some (padUpTo 0x36 hp (k + 1), padUpTo 0x5C hp (k + 1)) := by
  have hx : hp[k]? = some hp[k] := List.getElem?_eq_getElem hk
  have h1 : (padUpTo 0x36 hp k)[k]? = some 0x36 := by
    rw [List.getElem?_eq_getElem (by simpa [padUpTo] using hk64)]
    simp [padUpTo]
  have h2 : (padUpTo 0x5C hp k)[k]? = some 0x5C := by
    rw [List.getElem?_eq_getElem (by simpa [padUpTo] using hk64)]
    simp [padUpTo]
  simp only [xorStep, h1, h2, hx]
  rw [padUpTo_succ 0x36 hp k _ hx, padUpTo_succ 0x5C hp k _ hx]

theorem xorLoop_upTo (hp : Bytes) (k : Nat) (hk : k ≤ hp.length) (hk64 : k ≤ 64) :
    (List.range k).foldlM (xorStep hp) (List.replicate 64 0x36, List.replicate 64 0x5C)
      = some (padUpTo 0x36 hp k, padUpTo 0x5C hp k) := by
  induction k with
  | zero => simp [padUpTo_zero]
  | succ n ih =>
    rw [List.range_succ, List.foldlM_append, ih (by omega) (by omega)]
    simp [xorStep_padUpTo hp n (by omega) (by omega)]

theorem xorLoop_eq (hp : Bytes) (h : hp.length ≤ 64) :
    (List.range hp.length).foldlM (xorStep hp) (List.replicate 64 0x36, List.replicate 64 0x5C)
      = some (specPad 0x36 hp, specPad 0x5C hp) := by
  rw [xorLoop_upTo hp hp.length (le_refl _) h, padUpTo_full _ _ _ (le_refl _),
    padUpTo_full _ _ _ (le_refl _)]

theorem MakeDigestSt_eq (H : Bytes → Bytes) (h0 : Hash) (pwd salt key : Bytes)
    (hH : (H (pwd ++ salt)).length ≤ 64) :
    (MakeDigestSt H h0 pwd salt key).map Prod.fst
      = some (H (specPad 0x5C (H (pwd ++ salt)) ++ H (specPad 0x36 (H (pwd ++ salt)) ++ key))) := by
  simp only [MakeDigestSt, Hash.Reset, Hash.Write, Hash.Sum, List.nil_append]
  rw [xorLoop_eq _ hH]
  rfl

theorem MakeDigest_eq (H : Bytes → Bytes) (pwd salt key : Bytes)
    (hH : (H (pwd ++ salt)).length ≤ 64) :
    MakeDigest H pwd salt key
      = some (H (specPad 0x5C (H (pwd ++ salt)) ++ H (specPad 0x36 (H (pwd ++ salt)) ++ key))) :=
  MakeDigestSt_eq H ⟨[]⟩ pwd salt key hH

theorem specPad_length (fill : Nat) (hp : Bytes) : (specPad fill hp).length = 64 := by
  simp [specPad]

theorem specPad_getElem? (fill : Nat) (hp : Bytes) (i : Nat) (hi : i < 64) :
    (specPad fill hp)[i]? = some (match hp[i]? with | some k => fill ^^^ k | none => fill) := by
  rw [List.getElem?_eq_getElem (by simpa [specPad] using hi)]
  simp [specPad]

theorem specPad_eq_zeroPadded (fill : Nat) (key : Bytes) (h : key.length ≤ 64) :
    (key ++ List.replicate (64 - key.length) 0).map (fun b => b ^^^ fill) = specPad fill key := by
  apply List.ext_getElem?
  intro i
  by_cases hi : i < 64
  · rw [specPad_getElem? fill key i hi]
    by_cases hk : i < key.length
    · simp [List.getElem?_append_left, hk, List.getElem?_eq_getElem, Nat.xor_comm]
    · have hnone : key[i]? = none := List.getElem?_eq_none (by omega)
      rw [hnone, List.getElem?_map, List.getElem?_append_right (by omega),
        List.getElem?_replicate]
      simp
      omega
  · rw [List.getElem?_eq_none (by simp; omega), List.getElem?_eq_none (by simp [specPad]; omega)]

theorem MakeDigest_eq_hmac (H : Bytes → Bytes) (pwd salt key : Bytes)
    (hH : ∀ x, (H x).length ≤ 64) :
    MakeDigest H pwd salt key = some (hmacStandard H (H (pwd ++ salt)) key) := by
  rw [MakeDigest_eq H pwd salt key (hH _)]
  have h64 : ¬ 64 < (H (pwd ++ salt)).length := by
    have := hH (pwd ++ salt)
    omega
  simp only [hmacStandard, h64, if_false]
  rw [specPad_eq_zeroPadded _ _ (hH _), specPad_eq_zeroPadded _ _ (hH _)]

theorem toyHash_length (x : Bytes) : (toyHash x).length = 20 := by
  simp [toyHash]

theorem toyHash_le (x : Bytes) : (toyHash x).length ≤ 64 := by
  simp [toyHash]

/-- C1: for a hash whose output is at most 64 bytes, `MakeDigest` returns
`H(opad ++ H(ipad ++ challenge))`, where the two pads are 64 bytes long,
byte `i` of them is `0x36 xor hashedPwd[i]` and `0x5C xor hashedPwd[i]` below
`len(hashedPwd)` and `0x36` and `0x5C` from there on, with
`hashedPwd = H(password ++ salt)`; the state the hash object had before the
call does not matter. -/
theorem MakeDigest_two_pass (H : Bytes → Bytes) (h0 : Hash) (password salt challenge : Bytes)
    (hH : ∀ x, (H x).length ≤ 64) :
    ∃ ipad opad : Bytes,
      ipad.length = 64 ∧ opad.length = 64 ∧
      (∀ (i k : Nat), (H (password ++ salt))[i]? = some k →
        ipad[i]? = some (0x36 ^^^ k) ∧ opad[i]? = some (0x5C ^^^ k)) ∧
      (∀ i : Nat, (H (password ++ salt)).length ≤ i → i < 64 →
        ipad[i]? = some 0x36 ∧ opad[i]? = some 0x5C) ∧
      (MakeDigestSt H h0 password salt challenge).map Prod.fst
        = some (H (opad ++ H (ipad ++ challenge))) ∧
      MakeDigest H password salt challenge = some (H (opad ++ H (ipad ++ challenge))) := by
  refine ⟨specPad 0x36 (H (password ++ salt)), specPad 0x5C (H (password ++ salt)),
    specPad_length _ _, specPad_length _ _, ?_, ?_,
    MakeDigestSt_eq H h0 password salt challenge (hH _),
    MakeDigest_eq H password salt challenge (hH _)⟩
  · intro i k hk
    have hi : i < 64 := by
      have h1 := hH (password ++ salt)
      have h2 : i < (H (password ++ salt)).length := by
        by_contra hcon
        rw [List.getElem?_eq_none (by omega)] at hk
        cases hk
      omega
    rw [specPad_getElem? _ _ i hi, specPad_getElem? _ _ i hi, hk]
    exact ⟨rfl, rfl⟩
  · intro i hlen hi
    have hnone : (H (password ++ salt))[i]? = none := List.getElem?_eq_none hlen
    rw [specPad_getElem? _ _ i hi, specPad_getElem? _ _ i hi, hnone]
    exact ⟨rfl, rfl⟩

/-- Witness of C1 with the stand-in hash on "secret", "ab12", "chal99". -/
theorem MakeDigest_two_pass_witness :
    (∀ x, (toyHash x).length ≤ 64) ∧
    ∃ ipad opad : Bytes,
      ipad.length = 64 ∧ opad.length = 64 ∧
      (∀ (i k : Nat), (toyHash (str "secret" ++ str "ab12"))[i]? = some k →
        ipad[i]? = some (0x36 ^^^ k) ∧ opad[i]? = some (0x5C ^^^ k)) ∧
      (∀ i : Nat, (toyHash (str "secret" ++ str "ab12")).length ≤ i → i < 64 →
        ipad[i]? = some 0x36 ∧ opad[i]? = some 0x5C) ∧
      (MakeDigestSt toyHash ⟨[]⟩ (str "secret") (str "ab12") (str "chal99")).map Prod.fst
        = some (toyHash (opad ++ toyHash (ipad ++ str "chal99"))) ∧
      MakeDigest toyHash (str "secret") (str "ab12") (str "chal99")
        = some (toyHash (opad ++ toyHash (ipad ++ str "chal99"))) :=
  ⟨toyHash_le, MakeDigest_two_pass toyHash ⟨[]⟩ (str "secret") (str "ab12") (str "chal99") toyHash_le⟩

/-- C2, refuted: with a 20-byte hash there is no password, salt and
challenge on which `MakeDigest` differs from standard HMAC keyed with
`H(password ++ salt)` over the challenge. -/
theorem MakeDigest_no_hmac_difference :
    ¬ ∃ H : Bytes → Bytes, (∀ x, (H x).length = 20) ∧
      ∃ password salt challenge : Bytes,
        MakeDigest H password salt challenge
          ≠ some (hmacStandard H (H (password ++ salt)) challenge) := by
  rintro ⟨H, hH, password, salt, challenge, hne⟩
  exact hne (MakeDigest_eq_hmac H password salt challenge (fun x => by rw [hH x]; decide))

/-- C2, amended: with a 20-byte hash, `MakeDigest` equals standard HMAC keyed
with `H(password ++ salt)` over the challenge, for every password, salt and
challenge. -/
theorem MakeDigest_is_standard_hmac (H : Bytes → Bytes) (hH : ∀ x, (H x).length = 20)
    (password salt challenge : Bytes) :
    MakeDigest H password salt challenge
      = some (hmacStandard H (H (password ++ salt)) challenge) :=
  MakeDigest_eq_hmac H password salt challenge (fun x => by rw [hH x]; decide)

/-- Witness of the amended C2 with the stand-in hash. -/
theorem MakeDigest_is_standard_hmac_witness :
    (∀ x, (toyHash x).length = 20) ∧
    MakeDigest toyHash (str "secret") (str "ab12") (str "chal99")
      = some (hmacStandard toyHash (toyHash (str "secret" ++ str "ab12")) (str "chal99")) :=
  ⟨toyHash_length, MakeDigest_is_standard_hmac toyHash toyHash_length _ _ _⟩

end Ksh

/-! ## Theorems: doRequest -/

theorem str_slash : str "/" = [47] := by decide

theorem str_pct20 : str "%20" = [37, 50, 48] := by decide

theorem LastIndex_of_not_mem (s : Bytes) (sep : Nat) (h : sep ∉ s) :
    Strings.LastIndex s sep = -1 := by
  induction s with
  | nil => rfl
  | cons b bs ih =>
    have hb : ¬ b = sep := fun e => h (by simp [e])
    have hbs : sep ∉ bs := fun e => h (by simp [e])
    simp [Strings.LastIndex, ih hbs, hb]

theorem LastIndex_of_mem (s : Bytes) (sep : Nat) (h : sep ∈ s) :
    ∃ n : Nat, Strings.LastIndex s sep = (n : Int) ∧ n < s.length ∧
      s.take n ++ sep :: s.drop (n + 1) = s ∧ sep ∉ s.drop (n + 1) := by
  induction s with
  | nil => simp at h
  | cons b bs ih =>
    by_cases hbs : sep ∈ bs
    · obtain ⟨n, hn, hlt, hcat, hnot⟩ := ih hbs
      refine ⟨n + 1, ?_, by simp; omega, ?_, ?_⟩
      · have h0 : (0 : Int) ≤ (n : Int) := Int.ofNat_nonneg n
        simp [Strings.LastIndex, hn, h0]
      · simpa using hcat
      · simpa using hnot
    · have hb : b = sep := by
        rcases List.mem_cons.mp h with e | e
        · exact e.symm
        · exact absurd e hbs
      refine ⟨0, ?_, by simp, by simp [hb], by simpa using hbs⟩
      simp [Strings.LastIndex, LastIndex_of_not_mem bs sep hbs, hb]

theorem splitQuery_of_mem (urlStr : Bytes) (h : 63 ∈ urlStr) :
    ∃ path qs, splitQuery urlStr = some (path, qs) ∧ path ++ 63 :: qs = urlStr ∧ 63 ∉ qs := by
  obtain ⟨n, hn, hlt, hcat, hnot⟩ := LastIndex_of_mem urlStr 63 h
  refine ⟨urlStr.take n, urlStr.drop (n + 1), ?_, hcat, hnot⟩
  have h1 : Strings.sliceTo urlStr (n : Int) = some (urlStr.take n) := by
    have : (n : Int) ≤ (urlStr.length : Int) := by omega
    simp [Strings.sliceTo, this]
  have h2 : Strings.sliceFrom urlStr ((n : Int) + 1) = some (urlStr.drop (n + 1)) := by
    have hle : (n : Int) + 1 ≤ (urlStr.length : Int) := by omega
    have hnn : (0 : Int) ≤ (n : Int) + 1 := by omega
    have htn : ((n : Int) + 1).toNat = n + 1 := by omega
    simp [Strings.sliceFrom, hle, hnn, htn]
  simp [splitQuery, Strings.Contains, h, hn, h1, h2]

theorem splitQuery_of_not_mem (urlStr : Bytes) (h : 63 ∉ urlStr) :
    splitQuery urlStr = some (urlStr, []) := by
  simp [splitQuery, Strings.Contains, h]

theorem splitQuery_isSome (urlStr : Bytes) : ∃ path qs, splitQuery urlStr = some (path, qs) := by
  by_cases h : 63 ∈ urlStr
  · obtain ⟨path, qs, hs, _, _⟩ := splitQuery_of_mem urlStr h
    exact ⟨path, qs, hs⟩
  · exact ⟨urlStr, [], splitQuery_of_not_mem urlStr h⟩

theorem rewriteLoop_eq (segs : List Bytes) (n : Nat) (acc : Bytes) :
    (segs.enumFrom n).foldl (fun acc p => if 2 < p.1 then acc ++ str "/" ++ p.2 else acc) acc
      = acc ++ (segs.drop (3 - n)).flatMap (fun seg => 47 :: seg) := by
  induction segs generalizing n acc with
  | nil => simp
  | cons seg segs ih =>
    rw [List.enumFrom_cons, List.foldl_cons, ih]
    by_cases hn : 2 < n
    · have h0 : 3 - n = 0 := by omega
      have h1 : 3 - (n + 1) = 0 := by omega
      simp [hn, h0, h1, str_slash]
    · have h1 : 3 - n = (3 - (n + 1)) + 1 := by omega
      simp only [hn, if_false]
      rw [h1, List.drop_succ_cons]

theorem rewritePath_eq (path : Bytes) :
    rewritePath path = ((Strings.Split path 47).drop 3).flatMap (fun seg => 47 :: seg) := by
  unfold rewritePath
  rw [List.enum, rewriteLoop_eq]
  simp

theorem Replace_eq_flatMap (s : Bytes) (old : Nat) (new : Bytes) :
    Strings.Replace s old new = s.flatMap (fun c => if c = old then new else [c]) := by
  induction s with
  | nil => rfl
  | cons b bs ih =>
    by_cases hb : b = old <;> simp [Strings.Replace, hb, ih]

theorem specEscapeQuery_no_space (query : Bytes) : 32 ∉ specEscapeQuery query := by
  induction query with
  | nil => simp [specEscapeQuery]
  | cons c cs ih =>
    simp only [specEscapeQuery, List.flatMap_cons, List.mem_append, not_or] at ih ⊢
    refine ⟨?_, ih⟩
    by_cases hc : c = 32
    · simp [hc, str_pct20]
    · simp [hc]
      exact fun e => hc e.symm

theorem specEscapeQuery_of_no_space (query : Bytes) (h : 32 ∉ query) :
    specEscapeQuery query = query := by
  induction query with
  | nil => simp [specEscapeQuery]
  | cons c cs ih =>
    have hc : ¬ c = 32 := fun e => h (by simp [e])
    have hcs : 32 ∉ cs := fun e => h (by simp [e])
    have := ih hcs
    simp only [specEscapeQuery, List.flatMap_cons] at this ⊢
    simp [hc, this]

/-! ## Theorems: hex and base64 -/

theorem EncodeToString_length (src : Bytes) :
    (Hex.EncodeToString src).length = 2 * src.length := by
  induction src with
  | nil => rfl
  | cons v vs ih =>
    simp only [Hex.EncodeToString, List.flatMap_cons] at ih ⊢
    simp only [List.length_append, ih, List.length_cons, List.length_nil]
    omega

theorem hexDigit_upper (n : Nat) (h : n < 16) :
    (if 97 ≤ Hex.hextable.getD n 0 ∧ Hex.hextable.getD n 0 ≤ 122 then Hex.hextable.getD n 0 - 32
      else Hex.hextable.getD n 0) ∈ str "0123456789ABCDEF" ∧
    Hex.fromHexChar (if 97 ≤ Hex.hextable.getD n 0 ∧ Hex.hextable.getD n 0 ≤ 122
      then Hex.hextable.getD n 0 - 32 else Hex.hextable.getD n 0) = some n := by
  revert n
  decide

set_option maxRecDepth 8000 in
theorem byte_nibbles (v : Nat) (h : v < 256) :
    v >>> 4 < 16 ∧ v &&& 0x0f < 16 ∧ ((v >>> 4) <<< 4) ||| (v &&& 0x0f) = v := by
  revert v
  decide

theorem proof_length (digest : Bytes) :
    (Strings.ToUpper (Hex.EncodeToString digest)).length = 2 * digest.length := by
  simp [Strings.ToUpper, EncodeToString_length]

theorem proof_charset (digest : Bytes) (hb : ∀ b ∈ digest, b < 256) :
    ∀ c ∈ Strings.ToUpper (Hex.EncodeToString digest), c ∈ str "0123456789ABCDEF" := by
  induction digest with
  | nil => intro c hc; simp [Strings.ToUpper, Hex.EncodeToString] at hc
  | cons v vs ih =>
    have hv := byte_nibbles v (hb v (by simp))
    have ih2 := ih (fun b hbm => hb b (by simp [hbm]))
    intro c hc
    simp only [Strings.ToUpper, Hex.EncodeToString, List.flatMap_cons, List.map_append,
      List.map_cons, List.map_nil, List.mem_append, List.mem_cons, List.mem_singleton,
      List.not_mem_nil, or_false] at hc ih2
    rcases hc with (h1 | h2) | h3
    · rw [h1]; exact (hexDigit_upper _ hv.1).1
    · rw [h2]; exact (hexDigit_upper _ hv.2.1).1
    · exact ih2 c h3

theorem proof_decodes (digest : Bytes) (hb : ∀ b ∈ digest, b < 256) :
    Hex.DecodeString (Strings.ToUpper (Hex.EncodeToString digest)) = some digest := by
  induction digest with
  | nil => rfl
  | cons v vs ih =>
    have hv := byte_nibbles v (hb v (by simp))
    have ih2 := ih (fun b hbm => hb b (by simp [hbm]))
    simp only [Strings.ToUpper, Hex.EncodeToString, List.flatMap_cons, List.map_append,
      List.map_cons, List.map_nil, List.cons_append, List.nil_append] at ih2 ⊢
    simp only [Hex.DecodeString, (hexDigit_upper _ hv.1).2, (hexDigit_upper _ hv.2.1).2, ih2,
      hv.2.2]

theorem base64_ne_nil (src : Bytes) (h : src ≠ []) : Base64.EncodeToString src ≠ [] := by
  match src, h with
  | [_], _ => simp [Base64.EncodeToString]
  | [_, _], _ => simp [Base64.EncodeToString]
  | _ :: _ :: _ :: _, _ => simp [Base64.EncodeToString]

/-! ## Theorems: doRequest and the request it issues -/

theorem append_eq_self_append {α : Type} (tr issued other : List α)
    (h : tr ++ other = tr ++ issued) : issued = other :=
  (List.append_cancel_left h).symm

theorem prepareRequest_opaquePath (req : Request) (path qs sessionId : Bytes) :
    (prepareRequest req path qs sessionId).opaquePath = path := by
  by_cases hq : qs = [] <;> by_cases hs : sessionId = [] <;>
    by_cases hc : headerGet req.header (str "Cookie") = [] <;>
    simp [prepareRequest, AddCookie, hq, hs, hc]

theorem prepareRequest_rawQuery (req : Request) (path qs sessionId : Bytes) :
    (prepareRequest req path qs sessionId).rawQuery
      = if qs = [] then req.rawQuery else some (Strings.Replace qs 32 (str "%20")) := by
  by_cases hq : qs = [] <;> by_cases hs : sessionId = [] <;>
    by_cases hc : headerGet req.header (str "Cookie") = [] <;>
    simp [prepareRequest, AddCookie, hq, hs, hc]

theorem doRequestFrom_accepted (net : Net) (httpMethod urlStr sessionId : Bytes) (tr : Trace)
    (path qs : Bytes) (h : net.accepts httpMethod urlStr = true) :
    (doRequestFrom net httpMethod urlStr sessionId tr path qs).1
      = tr ++ [prepareRequest { method := httpMethod, url := urlStr } (rewritePath path) qs
          sessionId] := by
  simp only [doRequestFrom, NewRequest, h, if_true]
  cases net.Do tr (prepareRequest { method := httpMethod, url := urlStr } (rewritePath path) qs
    sessionId) <;> rfl

theorem doRequestFrom_rejected (net : Net) (httpMethod urlStr sessionId : Bytes) (tr : Trace)
    (path qs : Bytes) (h : net.accepts httpMethod urlStr = false) :
    doRequestFrom net httpMethod urlStr sessionId tr path qs = (tr, .error .panic) := by
  simp [doRequestFrom, NewRequest, h]

theorem doRequest_eq_from (net : Net) (httpMethod urlStr sessionId : Bytes) (tr : Trace)
    (path qs : Bytes) (h : splitQuery urlStr = some (path, qs)) :
    doRequest net httpMethod urlStr sessionId tr
      = doRequestFrom net httpMethod urlStr sessionId tr path qs := by
  simp [doRequest, h]

theorem doRequest_issued (net : Net) (httpMethod urlStr sessionId : Bytes) (tr : Trace)
    (path qs : Bytes) (h : splitQuery urlStr = some (path, qs)) (issued : Trace)
    (hi : (doRequest net httpMethod urlStr sessionId tr).1 = tr ++ issued) :
    ∀ req ∈ issued,
      req = prepareRequest { method := httpMethod, url := urlStr } (rewritePath path) qs
        sessionId := by
  rw [doRequest_eq_from net httpMethod urlStr sessionId tr path qs h] at hi
  cases hacc : net.accepts httpMethod urlStr with
  | true =>
    rw [doRequestFrom_accepted net httpMethod urlStr sessionId tr path qs hacc] at hi
    have := append_eq_self_append tr issued _ hi
    intro req hreq
    rw [this] at hreq
    simpa using hreq
  | false =>
    rw [doRequestFrom_rejected net httpMethod urlStr sessionId tr path qs hacc] at hi
    have : issued = [] := by
      have h2 : tr ++ [] = tr ++ issued := by simpa using hi
      exact append_eq_self_append tr issued [] h2
    intro req hreq
    rw [this] at hreq
    simp at hreq

theorem doRequest_accepted (net : Net) (httpMethod urlStr sessionId : Bytes) (tr : Trace)
    (path qs : Bytes) (h : splitQuery urlStr = some (path, qs))
    (hacc : net.accepts httpMethod urlStr = true) :
    (doRequest net httpMethod urlStr sessionId tr).1
      = tr ++ [prepareRequest { method := httpMethod, url := urlStr } (rewritePath path) qs
          sessionId] := by
  rw [doRequest_eq_from net httpMethod urlStr sessionId tr path qs h,
    doRequestFrom_accepted net httpMethod urlStr sessionId tr path qs hacc]

/-- C6, refuted: `http.NewRequest` accepts `a/b/c/d`, and the one request
`doRequest` issues for it has the opaque path `/d` (the first three segments
are dropped), while discarding the first two non-empty segments gives `c/d`,
or `/c/d` under the second reading. -/
theorem doRequest_path_drops_three :
    netDown.accepts (str "GET") (str "a/b/c/d") = true ∧
    (doRequest netDown (str "GET") (str "a/b/c/d") [] []).1.map (fun req => req.opaquePath)
        = [str "/d"] ∧
      specRewritePath (str "a/b/c/d") = str "c/d" ∧
      specRewritePathAlt (str "a/b/c/d") = str "/c/d" ∧
      str "/d" ≠ str "c/d" ∧ str "/d" ≠ str "/c/d" := by
  decide

/-- C6, amended: for every rawUrl, with `path` the part of rawUrl before the
last `?`, every request `doRequest` issues has as opaque path the result of
splitting `path` on `/`, dropping the first three segments (empty or not)
and putting a `/` in front of each segment left, and `doRequest` issues such
a request whenever `http.NewRequest` returns one for rawUrl; for
`/a/b/Entity?Name eq 'x'` the opaque path is `/Entity`. -/
theorem doRequest_opaque_path (net : Net) (httpMethod rawUrl sessionId : Bytes) (tr : Trace) :
    (∃ path qs, splitQuery rawUrl = some (path, qs) ∧
      (∀ issued, (doRequest net httpMethod rawUrl sessionId tr).1 = tr ++ issued →
        ∀ req ∈ issued,
          req.opaquePath
            = ((Strings.Split path 47).drop 3).flatMap (fun seg => str "/" ++ seg)) ∧
      (net.accepts httpMethod rawUrl = true →
        ∃ req, (doRequest net httpMethod rawUrl sessionId tr).1 = tr ++ [req])) ∧
    (∀ issued,
      (doRequest net httpMethod (str "/a/b/Entity?Name eq 'x'") sessionId tr).1 = tr ++ issued →
      ∀ req ∈ issued, req.opaquePath = str "/Entity") ∧
    (doRequest netDown (str "GET") (str "/a/b/Entity?Name eq 'x'") [] []).1.map
      (fun req => req.opaquePath) = [str "/Entity"] := by
  refine ⟨?_, ?_, by decide⟩
  · obtain ⟨path, qs, hs⟩ := splitQuery_isSome rawUrl
    refine ⟨path, qs, hs, ?_, ?_⟩
    · intro issued hi req hreq
      rw [doRequest_issued net httpMethod rawUrl sessionId tr path qs hs issued hi req hreq,
        prepareRequest_opaquePath, rewritePath_eq]
      simp [str_slash]
    · intro hacc
      exact ⟨_, doRequest_accepted net httpMethod rawUrl sessionId tr path qs hs hacc⟩
  · have hs : splitQuery (str "/a/b/Entity?Name eq 'x'")
        = some (str "/a/b/Entity", str "Name eq 'x'") := by decide
    intro issued hi req hreq
    rw [doRequest_issued net httpMethod _ sessionId tr _ _ hs issued hi req hreq,
      prepareRequest_opaquePath]
    decide

/-- C7: `doRequest` splits rawUrl at the last `?`. There are `path` and
`query` with `path ++ "?" ++ query = rawUrl` and no `?` in `query` when
rawUrl has a `?`, and `path = rawUrl`, `query` empty when it has none, such
that `doRequest` goes on from line 126 with exactly these two values: every
request it issues has the opaque path rewritten from `path` and, for a
non-empty `query`, the query escaped from `query`, and it issues such a
request whenever `http.NewRequest` returns one. On `/a/b/E?x?y z` the path is
`/a/b/E?x` and the query `y z`. -/
theorem doRequest_splits_at_last_question_mark (net : Net)
    (httpMethod rawUrl sessionId : Bytes) (tr : Trace) :
    (∃ path query,
      (63 ∈ rawUrl → path ++ str "?" ++ query = rawUrl ∧ 63 ∉ query) ∧
      (63 ∉ rawUrl → path = rawUrl ∧ query = []) ∧
      doRequest net httpMethod rawUrl sessionId tr
        = doRequestFrom net httpMethod rawUrl sessionId tr path query ∧
      (∀ issued, (doRequest net httpMethod rawUrl sessionId tr).1 = tr ++ issued →
        ∀ req ∈ issued,
          req.opaquePath = rewritePath path ∧
          req.rawQuery
            = if query = [] then none else some (Strings.Replace query 32 (str "%20"))) ∧
      (net.accepts httpMethod rawUrl = true →
        ∃ req, (doRequest net httpMethod rawUrl sessionId tr).1 = tr ++ [req])) ∧
    (doRequest netDown (str "GET") (str "/a/b/E?x?y z") [] []).1
      = [{ method := str "GET", url := str "/a/b/E?x?y z", opaquePath := str "/E?x",
           rawQuery := some (str "y%20z") }] := by
  constructor
  · have hq : str "?" = [63] := by decide
    have key : ∃ path query, splitQuery rawUrl = some (path, query) ∧
        (63 ∈ rawUrl → path ++ str "?" ++ query = rawUrl ∧ 63 ∉ query) ∧
        (63 ∉ rawUrl → path = rawUrl ∧ query = []) := by
      by_cases h : 63 ∈ rawUrl
      · obtain ⟨path, qs, hs, hcat, hnot⟩ := splitQuery_of_mem rawUrl h
        refine ⟨path, qs, hs, fun _ => ⟨?_, hnot⟩, fun hn => absurd h hn⟩
        rw [hq]
        simpa using hcat
      · exact ⟨rawUrl, [], splitQuery_of_not_mem rawUrl h, fun hm => absurd hm h,
          fun _ => ⟨rfl, rfl⟩⟩
    obtain ⟨path, query, hs, h1, h2⟩ := key
    refine ⟨path, query, h1, h2,
      doRequest_eq_from net httpMethod rawUrl sessionId tr path query hs, ?_, ?_⟩
    · intro issued hi req hreq
      rw [doRequest_issued net httpMethod rawUrl sessionId tr path query hs issued hi req hreq,
        prepareRequest_opaquePath, prepareRequest_rawQuery]
      exact ⟨rfl, rfl⟩
    · intro hacc
      exact ⟨_, doRequest_accepted net httpMethod rawUrl sessionId tr path query hs hacc⟩
  · decide

/-- C8: when the query part of rawUrl is not empty, every request
`doRequest` issues has as query the query part with every space replaced by
`%20` and all other bytes kept in order, and `doRequest` issues such a
request whenever `http.NewRequest` returns one for rawUrl; that query has no
space, it is the query part itself when that has no space, and for
`Name eq 'x'` it is `Name%20eq%20'x'`. -/
theorem doRequest_escapes_spaces (net : Net) (httpMethod rawUrl sessionId : Bytes)
    (tr : Trace) (path query : Bytes)
    (hsplit : splitQuery rawUrl = some (path, query)) (hq : query ≠ []) :
    ∃ sent,
      sent = specEscapeQuery query ∧
      32 ∉ sent ∧
      (32 ∉ query → sent = query) ∧
      (∀ issued, (doRequest net httpMethod rawUrl sessionId tr).1 = tr ++ issued →
        ∀ req ∈ issued, req.rawQuery = some sent) ∧
      (net.accepts httpMethod rawUrl = true →
        ∃ req, (doRequest net httpMethod rawUrl sessionId tr).1 = tr ++ [req] ∧
          req.rawQuery = some sent) ∧
      specEscapeQuery (str "Name eq 'x'") = str "Name%20eq%20'x'" := by
  have hraw : (prepareRequest { method := httpMethod, url := rawUrl } (rewritePath path) query
      sessionId).rawQuery = some (specEscapeQuery query) := by
    rw [prepareRequest_rawQuery, if_neg hq, Replace_eq_flatMap]
    rfl
  refine ⟨specEscapeQuery query, rfl, specEscapeQuery_no_space query,
    specEscapeQuery_of_no_space query, ?_, ?_, by decide⟩
  · intro issued hi req hreq
    rw [doRequest_issued net httpMethod rawUrl sessionId tr path query hsplit issued hi req hreq]
    exact hraw
  · intro hacc
    exact ⟨_, doRequest_accepted net httpMethod rawUrl sessionId tr path query hsplit hacc, hraw⟩

/-- Witness of C8 on `/a/b/Entity?Name eq 'x'`, which `http.NewRequest`
accepts. -/
theorem doRequest_escapes_spaces_witness :
    splitQuery (str "/a/b/Entity?Name eq 'x'") = some (str "/a/b/Entity", str "Name eq 'x'") ∧
    str "Name eq 'x'" ≠ [] ∧
    netDown.accepts (str "GET") (str "/a/b/Entity?Name eq 'x'") = true ∧
    ∃ sent,
      sent = specEscapeQuery (str "Name eq 'x'") ∧
      32 ∉ sent ∧
      (32 ∉ str "Name eq 'x'" → sent = str "Name eq 'x'") ∧
      (∀ issued,
        (doRequest netDown (str "GET") (str "/a/b/Entity?Name eq 'x'") (str "abc") []).1
          = [] ++ issued →
        ∀ req ∈ issued, req.rawQuery = some sent) ∧
      (netDown.accepts (str "GET") (str "/a/b/Entity?Name eq 'x'") = true →
        ∃ req,
          (doRequest netDown (str "GET") (str "/a/b/Entity?Name eq 'x'") (str "abc") []).1
            = [] ++ [req] ∧
          req.rawQuery = some sent) ∧
      specEscapeQuery (str "Name eq 'x'") = str "Name%20eq%20'x'" :=
  ⟨by decide, by decide, by decide,
    doRequest_escapes_spaces netDown (str "GET") (str "/a/b/Entity?Name eq 'x'") (str "abc") []
      (str "/a/b/Entity") (str "Name eq 'x'") (by decide) (by decide)⟩

/-! ## Theorems: getChallenge, login, logout -/

theorem url_login_ne_challenge (root : Bytes) : root ++ str "/$challenge" ≠ root ++ str "/" := by
  intro h
  have := List.append_cancel_left h
  revert this
  decide

theorem getChallenge_rejected (cfg : Config) (net : Net) (username pwd : Bytes) (tr : Trace)
    (hacc : net.accepts (str "GET") (cfg.serviceUrl ++ str "/$challenge") = false) :
    getChallenge cfg net username pwd tr = (tr, .error .panic) := by
  simp [getChallenge, NewRequest, hacc]

theorem getChallenge_ok (cfg : Config) (net : Net) (username pwd : Bytes) (tr : Trace)
    (hacc : net.accepts (str "GET") (cfg.serviceUrl ++ str "/$challenge") = true)
    (cresp : Response) (h : net.Do tr (challengeRequest cfg username) = .ok cresp) :
    getChallenge cfg net username pwd tr
      = (tr ++ [challengeRequest cfg username],
          .ok (cresp.Get (str "Challenge"), cresp.Get (str "Salt"), cookieOf cresp)) := by
  simp only [getChallenge, NewRequest, hacc, if_true]
  change (match net.Do tr (challengeRequest cfg username) with
    | .error e => (tr ++ [challengeRequest cfg username], Except.error (Fatal.transport e))
    | .ok resp => (tr ++ [challengeRequest cfg username],
        Except.ok (resp.Get (str "Challenge"), resp.Get (str "Salt"),
          captureCookie [] resp.cookies))) = _
  rw [h]
  rfl

theorem getChallenge_error (cfg : Config) (net : Net) (username pwd : Bytes) (tr : Trace)
    (hacc : net.accepts (str "GET") (cfg.serviceUrl ++ str "/$challenge") = true)
    (e : Bytes) (h : net.Do tr (challengeRequest cfg username) = .error e) :
    getChallenge cfg net username pwd tr
      = (tr ++ [challengeRequest cfg username], .error (.transport e)) := by
  simp only [getChallenge, NewRequest, hacc, if_true]
  change (match net.Do tr (challengeRequest cfg username) with
    | .error e => (tr ++ [challengeRequest cfg username], Except.error (Fatal.transport e))
    | .ok resp => (tr ++ [challengeRequest cfg username],
        Except.ok (resp.Get (str "Challenge"), resp.Get (str "Salt"),
          captureCookie [] resp.cookies))) = _
  rw [h]

theorem loginPrepare_other (H : Bytes → Bytes) (cfg : Config) (net : Net)
    (username pwd : Bytes) (tr : Trace) (hmode : cfg.auth_type ≠ str "intrexx") :
    ∃ authb64, loginPrepare H cfg net username pwd tr = (tr, .ok (authb64, [])) := by
  by_cases hb : cfg.auth_type = str "basic"
  · refine ⟨Base64.EncodeToString (username ++ str ":" ++ pwd), ?_⟩
    unfold loginPrepare
    rw [if_neg hmode, if_pos hb]
  · refine ⟨[], ?_⟩
    unfold loginPrepare
    rw [if_neg hmode, if_neg hb]

theorem loginPrepare_challenge_rejected (H : Bytes → Bytes) (cfg : Config) (net : Net)
    (username pwd : Bytes) (tr : Trace) (hmode : cfg.auth_type = str "intrexx")
    (hacc : net.accepts (str "GET") (cfg.serviceUrl ++ str "/$challenge") = false) :
    loginPrepare H cfg net username pwd tr = (tr, .error .panic) := by
  simp [loginPrepare, hmode, getChallenge_rejected cfg net username pwd tr hacc]

theorem loginPrepare_challenge_ok (H : Bytes → Bytes) (cfg : Config) (net : Net)
    (username pwd : Bytes) (tr : Trace) (hmode : cfg.auth_type = str "intrexx")
    (hacc : net.accepts (str "GET") (cfg.serviceUrl ++ str "/$challenge") = true)
    (cresp : Response) (h : net.Do tr (challengeRequest cfg username) = .ok cresp)
    (digest : Bytes)
    (hd : Ksh.MakeDigest H pwd (cresp.Get (str "Salt")) (cresp.Get (str "Challenge")) = some digest) :
    loginPrepare H cfg net username pwd tr
      = (tr ++ [challengeRequest cfg username],
          .ok (Base64.EncodeToString
              (username ++ str ":" ++ Strings.ToUpper (Hex.EncodeToString digest)),
            cookieOf cresp)) := by
  simp [loginPrepare, hmode, getChallenge_ok cfg net username pwd tr hacc cresp h, hd]

theorem loginPrepare_challenge_panic (H : Bytes → Bytes) (cfg : Config) (net : Net)
    (username pwd : Bytes) (tr : Trace) (hmode : cfg.auth_type = str "intrexx")
    (hacc : net.accepts (str "GET") (cfg.serviceUrl ++ str "/$challenge") = true)
    (cresp : Response) (h : net.Do tr (challengeRequest cfg username) = .ok cresp)
    (hd : Ksh.MakeDigest H pwd (cresp.Get (str "Salt")) (cresp.Get (str "Challenge")) = none) :
    loginPrepare H cfg net username pwd tr
      = (tr ++ [challengeRequest cfg username], .error .panic) := by
  simp [loginPrepare, hmode, getChallenge_ok cfg net username pwd tr hacc cresp h, hd]

theorem loginPrepare_challenge_error (H : Bytes → Bytes) (cfg : Config) (net : Net)
    (username pwd : Bytes) (tr : Trace) (hmode : cfg.auth_type = str "intrexx")
    (hacc : net.accepts (str "GET") (cfg.serviceUrl ++ str "/$challenge") = true)
    (e : Bytes) (h : net.Do tr (challengeRequest cfg username) = .error e) :
    loginPrepare H cfg net username pwd tr
      = (tr ++ [challengeRequest cfg username], .error (.transport e)) := by
  simp [loginPrepare, hmode, getChallenge_error cfg net username pwd tr hacc e h]

theorem loginPrepare_cases (H : Bytes → Bytes) (cfg : Config) (net : Net)
    (username pwd : Bytes) (tr : Trace) :
    ∃ issued, (issued = [] ∨ issued = [challengeRequest cfg username]) ∧
      ((∃ e, loginPrepare H cfg net username pwd tr = (tr ++ issued, .error e)) ∨
       (∃ authb64 sessionId,
          loginPrepare H cfg net username pwd tr = (tr ++ issued, .ok (authb64, sessionId)))) := by
  by_cases hmode : cfg.auth_type = str "intrexx"
  · cases hacc : net.accepts (str "GET") (cfg.serviceUrl ++ str "/$challenge") with
    | false =>
      exact ⟨[], Or.inl rfl, Or.inl ⟨.panic, by
        rw [loginPrepare_challenge_rejected H cfg net username pwd tr hmode hacc]; simp⟩⟩
    | true =>
      refine ⟨[challengeRequest cfg username], Or.inr rfl, ?_⟩
      cases h : net.Do tr (challengeRequest cfg username) with
      | error e =>
        exact Or.inl ⟨_, loginPrepare_challenge_error H cfg net username pwd tr hmode hacc e h⟩
      | ok cresp =>
        cases hd : Ksh.MakeDigest H pwd (cresp.Get (str "Salt")) (cresp.Get (str "Challenge")) with
        | none =>
          exact Or.inl ⟨_,
            loginPrepare_challenge_panic H cfg net username pwd tr hmode hacc cresp h hd⟩
        | some digest =>
          exact Or.inr ⟨_, _,
            loginPrepare_challenge_ok H cfg net username pwd tr hmode hacc cresp h digest hd⟩
  · obtain ⟨a, ha⟩ := loginPrepare_other H cfg net username pwd tr hmode
    exact ⟨[], Or.inl rfl, Or.inr ⟨a, [], by rw [ha]; simp⟩⟩

theorem login_of_prepare_error (H : Bytes → Bytes) (cfg : Config) (net : Net)
    (username pwd : Bytes) (tr tr1 : Trace) (e : Fatal)
    (hp : loginPrepare H cfg net username pwd tr = (tr1, .error e)) :
    login H cfg net username pwd tr = (tr1, .error e) := by
  simp [login, hp]

theorem login_of_prepare_rejected (H : Bytes → Bytes) (cfg : Config) (net : Net)
    (username pwd : Bytes) (tr tr1 : Trace) (authb64 sessionId : Bytes)
    (hp : loginPrepare H cfg net username pwd tr = (tr1, .ok (authb64, sessionId)))
    (hacc : net.accepts (str "GET") (cfg.serviceUrl ++ str "/") = false) :
    login H cfg net username pwd tr = (tr1, .error .newRequest) := by
  simp [login, hp, NewRequest, hacc]

theorem login_of_prepare_ok (H : Bytes → Bytes) (cfg : Config) (net : Net)
    (username pwd : Bytes) (tr tr1 : Trace) (authb64 sessionId : Bytes)
    (hp : loginPrepare H cfg net username pwd tr = (tr1, .ok (authb64, sessionId)))
    (hacc : net.accepts (str "GET") (cfg.serviceUrl ++ str "/") = true) :
    (login H cfg net username pwd tr).1 = tr1 ++ [loginRequest cfg authb64 sessionId] ∧
    (∀ e, net.Do tr1 (loginRequest cfg authb64 sessionId) = .error e →
      (login H cfg net username pwd tr).2 = .error (.transport e)) ∧
    (∀ resp, net.Do tr1 (loginRequest cfg authb64 sessionId) = .ok resp →
      (login H cfg net username pwd tr).2 =
        if resp.StatusCode = 401 then .error (.loginDenied resp.StatusCode)
        else if resp.StatusCode ≠ 200 then .error (.badStatus resp.StatusCode)
        else .ok (captureCookie sessionId resp.cookies)) := by
  simp only [login, hp, NewRequest, hacc, if_true]
  change
    (match net.Do tr1 (loginRequest cfg authb64 sessionId) with
      | .error e => (tr1 ++ [loginRequest cfg authb64 sessionId], Except.error (Fatal.transport e))
      | .ok resp =>
        if resp.StatusCode = 401 then
          (tr1 ++ [loginRequest cfg authb64 sessionId],
            Except.error (Fatal.loginDenied resp.StatusCode))
        else if resp.StatusCode ≠ 200 then
          (tr1 ++ [loginRequest cfg authb64 sessionId],
            Except.error (Fatal.badStatus resp.StatusCode))
        else (tr1 ++ [loginRequest cfg authb64 sessionId],
            Except.ok (captureCookie sessionId resp.cookies))).1
      = tr1 ++ [loginRequest cfg authb64 sessionId] ∧
    (∀ e, net.Do tr1 (loginRequest cfg authb64 sessionId) = .error e →
      (match net.Do tr1 (loginRequest cfg authb64 sessionId) with
      | .error e => (tr1 ++ [loginRequest cfg authb64 sessionId], Except.error (Fatal.transport e))
      | .ok resp =>
        if resp.StatusCode = 401 then
          (tr1 ++ [loginRequest cfg authb64 sessionId],
            Except.error (Fatal.loginDenied resp.StatusCode))
        else if resp.StatusCode ≠ 200 then
          (tr1 ++ [loginRequest cfg authb64 sessionId],
            Except.error (Fatal.badStatus resp.StatusCode))
        else (tr1 ++ [loginRequest cfg authb64 sessionId],
            Except.ok (captureCookie sessionId resp.cookies))).2
        = .error (.transport e)) ∧
    (∀ resp, net.Do tr1 (loginRequest cfg authb64 sessionId) = .ok resp →
      (match net.Do tr1 (loginRequest cfg authb64 sessionId) with
      | .error e => (tr1 ++ [loginRequest cfg authb64 sessionId], Except.error (Fatal.transport e))
      | .ok resp =>
        if resp.StatusCode = 401 then
          (tr1 ++ [loginRequest cfg authb64 sessionId],
            Except.error (Fatal.loginDenied resp.StatusCode))
        else if resp.StatusCode ≠ 200 then
          (tr1 ++ [loginRequest cfg authb64 sessionId],
            Except.error (Fatal.badStatus resp.StatusCode))
        else (tr1 ++ [loginRequest cfg authb64 sessionId],
            Except.ok (captureCookie sessionId resp.cookies))).2 =
        if resp.StatusCode = 401 then .error (.loginDenied resp.StatusCode)
        else if resp.StatusCode ≠ 200 then .error (.badStatus resp.StatusCode)
        else .ok (captureCookie sessionId resp.cookies))
  cases hc : net.Do tr1 (loginRequest cfg authb64 sessionId) with
  | error e => simp
  | ok resp =>
    by_cases h1 : resp.StatusCode = 401
    · simp [h1]
    · by_cases h2 : resp.StatusCode = 200
      · simp [h2]
      · simp [h1, h2]

theorem loginRequest_url (cfg : Config) (authb64 sessionId : Bytes) :
    (loginRequest cfg authb64 sessionId).url = cfg.serviceUrl ++ str "/" := by
  by_cases ha : authb64 = [] <;> by_cases hs : sessionId = [] <;>
    simp [loginRequest, loginHeaders, ha, hs]

theorem loginRequest_authorization (cfg : Config) (authb64 sessionId : Bytes) (h : authb64 ≠ []) :
    (loginRequest cfg authb64 sessionId).header.filter (fun kv => kv.1 = str "Authorization")
      = [(str "Authorization", str "Basic " ++ authb64)] := by
  have hne : ¬ str "Cookie" = str "Authorization" := by decide
  by_cases hs : sessionId = [] <;> simp [loginRequest, loginHeaders, headerAdd, h, hs, hne]

theorem not_login_request (cfg : Config) (username : Bytes) (tr issued before : Trace)
    (req : Request) (hi : issued = [] ∨ issued = [challengeRequest cfg username])
    (htr : tr ++ issued = tr ++ before ++ [req]) (hurl : req.url = cfg.serviceUrl ++ str "/") :
    False := by
  rw [List.append_assoc] at htr
  have h2 := List.append_cancel_left htr
  rcases hi with h | h
  · rw [h] at h2
    cases before <;> simp at h2
  · rw [h] at h2
    have h3 : [] ++ [challengeRequest cfg username] = before ++ [req] := by simpa using h2
    have hreq := (List.append_inj' h3 rfl).2
    simp only [List.cons.injEq, and_true] at hreq
    rw [← hreq] at hurl
    exact url_login_ne_challenge cfg.serviceUrl hurl

theorem login_response_status (H : Bytes → Bytes) (cfg : Config) (net : Net)
    (username pwd : Bytes) (tr : Trace) (resp : Response)
    (h : IsLoginResponse cfg net tr (login H cfg net username pwd tr) resp) :
    ∃ issued authb64 sessionId,
      loginPrepare H cfg net username pwd tr = (tr ++ issued, .ok (authb64, sessionId)) ∧
      (login H cfg net username pwd tr).1 = tr ++ issued ++ [loginRequest cfg authb64 sessionId] ∧
      net.Do (tr ++ issued) (loginRequest cfg authb64 sessionId) = .ok resp ∧
      (login H cfg net username pwd tr).2 =
        if resp.StatusCode = 401 then .error (.loginDenied resp.StatusCode)
        else if resp.StatusCode ≠ 200 then .error (.badStatus resp.StatusCode)
        else .ok (captureCookie sessionId resp.cookies) := by
  obtain ⟨before, req, htr, hurl, hresp⟩ := h
  obtain ⟨issued, hi, hcase⟩ := loginPrepare_cases H cfg net username pwd tr
  rcases hcase with ⟨e, he⟩ | ⟨a, sid, hok⟩
  · rw [login_of_prepare_error H cfg net username pwd tr _ e he] at htr
    exact absurd hurl (fun hu => not_login_request cfg username tr issued before req hi htr hu)
  · cases hacc : net.accepts (str "GET") (cfg.serviceUrl ++ str "/") with
    | false =>
      rw [login_of_prepare_rejected H cfg net username pwd tr _ a sid hok hacc] at htr
      exact absurd hurl (fun hu => not_login_request cfg username tr issued before req hi htr hu)
    | true =>
      obtain ⟨h1, _, h3⟩ := login_of_prepare_ok H cfg net username pwd tr _ a sid hok hacc
      rw [h1] at htr
      obtain ⟨hb, hreq⟩ := List.append_inj' htr rfl
      simp only [List.cons.injEq, and_true] at hreq
      rw [← hb, ← hreq] at hresp
      exact ⟨issued, a, sid, hok, h1, hresp, h3 resp hresp⟩

/-- C3: in every login mode, when the login request is answered with `resp`:
status 401 ends the run with the login-denied exit, any other status
different from 200 ends it with the status exit carrying that status, status
200 makes `login` return a session id, and `login` returns a session id only
for status 200 (a failed login returns none). -/
theorem login_status_handling (H : Bytes → Bytes) (cfg : Config) (net : Net)
    (username pwd : Bytes) (tr : Trace) (resp : Response)
    (h : IsLoginResponse cfg net tr (login H cfg net username pwd tr) resp) :
    (resp.StatusCode = 401 →
      (login H cfg net username pwd tr).2 = .error (.loginDenied 401)) ∧
    (resp.StatusCode ≠ 401 → resp.StatusCode ≠ 200 →
      (login H cfg net username pwd tr).2 = .error (.badStatus resp.StatusCode)) ∧
    (resp.StatusCode = 200 → ∃ sid, (login H cfg net username pwd tr).2 = .ok sid) ∧
    (∀ sid, (login H cfg net username pwd tr).2 = .ok sid → resp.StatusCode = 200) := by
  obtain ⟨_, _, sessionId, _, _, _, hres⟩ :=
    login_response_status H cfg net username pwd tr resp h
  refine ⟨?_, ?_, ?_, ?_⟩
  · intro h401
    rw [hres, if_pos h401, h401]
  · intro h401 h200
    rw [hres, if_neg h401, if_pos h200]
  · intro h200
    have h401 : ¬ resp.StatusCode = 401 := by rw [h200]; decide
    exact ⟨_, by rw [hres, if_neg h401, if_neg (not_not.mpr h200)]⟩
  · intro sid hsid
    rw [hres] at hsid
    by_contra h200
    by_cases h401 : resp.StatusCode = 401
    · rw [if_pos h401] at hsid
      cases hsid
    · rw [if_neg h401, if_pos h200] at hsid
      cases hsid

/-- Witness of C3: basic mode against a server that answers 401. -/
theorem login_status_handling_witness :
    IsLoginResponse cfgBasic netDenied []
      (login Ksh.toyHash cfgBasic netDenied (str "u") (str "p") []) respDenied ∧
    ((respDenied.StatusCode = 401 →
      (login Ksh.toyHash cfgBasic netDenied (str "u") (str "p") []).2
        = .error (.loginDenied 401)) ∧
    (respDenied.StatusCode ≠ 401 →
      respDenied.StatusCode ≠ 200 →
      (login Ksh.toyHash cfgBasic netDenied (str "u") (str "p") []).2
        = .error (.badStatus respDenied.StatusCode)) ∧
    (respDenied.StatusCode = 200 →
      ∃ sid, (login Ksh.toyHash cfgBasic netDenied (str "u") (str "p") []).2 = .ok sid) ∧
    (∀ sid, (login Ksh.toyHash cfgBasic netDenied (str "u") (str "p") []).2 = .ok sid →
      respDenied.StatusCode = 200)) :=
  have hw : IsLoginResponse cfgBasic netDenied []
      (login Ksh.toyHash cfgBasic netDenied (str "u") (str "p") []) respDenied :=
    ⟨[], loginRequest cfgBasic (Base64.EncodeToString (str "u" ++ str ":" ++ str "p")) [],
      by decide, by decide, rfl⟩
  ⟨hw, login_status_handling Ksh.toyHash cfgBasic netDenied (str "u") (str "p") []
    respDenied hw⟩

theorem toyHash_fold_lt (x : Bytes) (i a : Nat) (ha : a < 256) :
    x.foldl (fun a b => (a * 31 + b + i) % 256) a < 256 := by
  induction x generalizing a with
  | nil => simpa using ha
  | cons b bs ih =>
    rw [List.foldl_cons]
    exact ih _ (Nat.mod_lt _ (by decide))

theorem toyHash_byte (x : Bytes) : ∀ b ∈ Ksh.toyHash x, b < 256 := by
  intro b hb
  simp only [Ksh.toyHash, List.mem_map, List.mem_range] at hb
  obtain ⟨i, hi, rfl⟩ := hb
  exact toyHash_fold_lt x i i (by omega)

theorem captureCookie_of_mem (cookies : List Cookie)
    (h : ∃ c ∈ cookies, c.Name = str "co_SId") (a b : Bytes) :
    captureCookie a cookies = captureCookie b cookies := by
  induction cookies generalizing a b with
  | nil => simp at h
  | cons c cs ih =>
    simp only [captureCookie, List.foldl_cons] at ih ⊢
    by_cases hcs : ∃ c ∈ cs, c.Name = str "co_SId"
    · exact ih hcs _ _
    · have hc : c.Name = str "co_SId" := by
        obtain ⟨d, hd, hn⟩ := h
        rcases List.mem_cons.mp hd with e | e
        · rw [← e]; exact hn
        · exact absurd ⟨d, e, hn⟩ hcs
      simp [hc]

theorem captureCookie_of_not_mem (cookies : List Cookie)
    (h : ∀ c ∈ cookies, c.Name ≠ str "co_SId") (a : Bytes) :
    captureCookie a cookies = a := by
  induction cookies generalizing a with
  | nil => rfl
  | cons c cs ih =>
    simp only [captureCookie, List.foldl_cons] at ih ⊢
    have hc : ¬ c.Name = str "co_SId" := h c (by simp)
    rw [if_neg hc]
    exact ih (fun d hd => h d (by simp [hd])) a

theorem login_challenge_run (H : Bytes → Bytes) (hlen : ∀ x, (H x).length ≤ 64) (cfg : Config)
    (hmode : cfg.auth_type = str "intrexx") (net : Net) (username pwd : Bytes) (tr : Trace)
    (hcb : net.accepts (str "GET") (cfg.serviceUrl ++ str "/$challenge") = true)
    (cresp : Response) (hch : net.Do tr (challengeRequest cfg username) = .ok cresp) :
    ∃ digest,
      Ksh.MakeDigest H pwd (cresp.Get (str "Salt")) (cresp.Get (str "Challenge")) = some digest ∧
      loginPrepare H cfg net username pwd tr
        = (tr ++ [challengeRequest cfg username],
            .ok (Base64.EncodeToString
                (username ++ str ":" ++ Strings.ToUpper (Hex.EncodeToString digest)),
              cookieOf cresp)) := by
  have hd := Ksh.MakeDigest_eq H pwd (cresp.Get (str "Salt")) (cresp.Get (str "Challenge"))
    (hlen _)
  exact ⟨_, hd, loginPrepare_challenge_ok H cfg net username pwd tr hmode hcb cresp hch _ hd⟩

/-- C4: in challenge mode (auth type `intrexx`, hash output at most 64 bytes,
each below 256), when the challenge request is built and answered with
`cresp` and `http.NewRequest` returns the login request, the run issues the
challenge request and then a login request to `{serviceUrl}/` whose only
Authorization header is `"Basic " ++ base64(username ++ ":" ++ proof)`, where
`proof` is the upper-case hex encoding of
`MakeDigest(password, salt, challenge)` for the `Salt` and `Challenge`
headers of `cresp`; `proof` has twice as many characters as the digest has
bytes, all among `0-9A-F`, and hex-decodes to the digest. -/
theorem login_challenge_authorization (H : Bytes → Bytes) (hlen : ∀ x, (H x).length ≤ 64)
    (hbyte : ∀ x, ∀ b ∈ H x, b < 256) (cfg : Config) (hmode : cfg.auth_type = str "intrexx")
    (net : Net) (username pwd : Bytes) (tr : Trace) (cresp : Response)
    (hcb : net.accepts (str "GET") (cfg.serviceUrl ++ str "/$challenge") = true)
    (hch : net.Do tr (challengeRequest cfg username) = .ok cresp)
    (hlb : net.accepts (str "GET") (cfg.serviceUrl ++ str "/") = true) :
    ∃ digest proof req,
      Ksh.MakeDigest H pwd (cresp.Get (str "Salt")) (cresp.Get (str "Challenge")) = some digest ∧
      proof = Strings.ToUpper (Hex.EncodeToString digest) ∧
      (login H cfg net username pwd tr).1 = tr ++ [challengeRequest cfg username, req] ∧
      req.url = cfg.serviceUrl ++ str "/" ∧
      req.header.filter (fun kv => kv.1 = str "Authorization")
        = [(str "Authorization",
            str "Basic " ++ Base64.EncodeToString (username ++ str ":" ++ proof))] ∧
      proof.length = 2 * digest.length ∧
      (∀ c ∈ proof, c ∈ str "0123456789ABCDEF") ∧
      Hex.DecodeString proof = some digest := by
  obtain ⟨digest, hd, hprep⟩ :=
    login_challenge_run H hlen cfg hmode net username pwd tr hcb cresp hch
  have hdb : ∀ b ∈ digest, b < 256 := by
    rw [Ksh.MakeDigest_eq H _ _ _ (hlen _)] at hd
    cases hd
    exact hbyte _
  have hne : Base64.EncodeToString
      (username ++ str ":" ++ Strings.ToUpper (Hex.EncodeToString digest)) ≠ [] := by
    apply base64_ne_nil
    have hc : str ":" = [58] := by decide
    simp [hc]
  refine ⟨digest, _, _, hd, rfl, ?_, loginRequest_url cfg _ (cookieOf cresp),
    loginRequest_authorization cfg _ _ hne, proof_length digest, proof_charset digest hdb,
    proof_decodes digest hdb⟩
  rw [(login_of_prepare_ok H cfg net username pwd tr _ _ _ hprep hlb).1]
  simp

/-- Witness of C4: the stand-in hash against a server that answers the
challenge with `Challenge: chal99`, `Salt: ab12`. -/
theorem login_challenge_authorization_witness :
    (∀ x, (Ksh.toyHash x).length ≤ 64) ∧ (∀ x, ∀ b ∈ Ksh.toyHash x, b < 256) ∧
    cfgIntrexx.auth_type = str "intrexx" ∧
    netChallengeCookie.accepts (str "GET") (cfgIntrexx.serviceUrl ++ str "/$challenge") = true ∧
    netChallengeCookie.Do [] (challengeRequest cfgIntrexx (str "u")) = .ok respChallenge ∧
    netChallengeCookie.accepts (str "GET") (cfgIntrexx.serviceUrl ++ str "/") = true ∧
    ∃ digest proof req,
      Ksh.MakeDigest Ksh.toyHash (str "p") (str "ab12") (str "chal99") = some digest ∧
      proof = Strings.ToUpper (Hex.EncodeToString digest) ∧
      (login Ksh.toyHash cfgIntrexx netChallengeCookie (str "u") (str "p") []).1
        = [] ++ [challengeRequest cfgIntrexx (str "u"), req] ∧
      req.url = cfgIntrexx.serviceUrl ++ str "/" ∧
      req.header.filter (fun kv => kv.1 = str "Authorization")
        = [(str "Authorization",
            str "Basic " ++ Base64.EncodeToString (str "u" ++ str ":" ++ proof))] ∧
      proof.length = 2 * digest.length ∧
      (∀ c ∈ proof, c ∈ str "0123456789ABCDEF") ∧
      Hex.DecodeString proof = some digest :=
  ⟨Ksh.toyHash_le, toyHash_byte, rfl, by decide, rfl, by decide,
    login_challenge_authorization Ksh.toyHash Ksh.toyHash_le toyHash_byte cfgIntrexx rfl
      netChallengeCookie (str "u") (str "p") [] respChallenge (by decide) rfl (by decide)⟩

theorem isLoginResponse_challenge (H : Bytes → Bytes) (hlen : ∀ x, (H x).length ≤ 64)
    (cfg : Config) (hmode : cfg.auth_type = str "intrexx") (net : Net)
    (username pwd : Bytes) (tr : Trace) (cresp : Response)
    (hch : net.Do tr (challengeRequest cfg username) = .ok cresp) (resp : Response)
    (hresp : IsLoginResponse cfg net tr (login H cfg net username pwd tr) resp) :
    (login H cfg net username pwd tr).2 =
      if resp.StatusCode = 401 then .error (.loginDenied resp.StatusCode)
      else if resp.StatusCode ≠ 200 then .error (.badStatus resp.StatusCode)
      else .ok (captureCookie (cookieOf cresp) resp.cookies) := by
  obtain ⟨issued, a, sid, hok, _, _, hres⟩ :=
    login_response_status H cfg net username pwd tr resp hresp
  cases hcb : net.accepts (str "GET") (cfg.serviceUrl ++ str "/$challenge") with
  | false =>
    rw [loginPrepare_challenge_rejected H cfg net username pwd tr hmode hcb] at hok
    simp at hok
  | true =>
    obtain ⟨digest, _, hprep⟩ :=
      login_challenge_run H hlen cfg hmode net username pwd tr hcb cresp hch
    rw [hprep] at hok
    have hsid : cookieOf cresp = sid := by
      have h2 := (Prod.mk.inj hok).2
      have h3 := Except.ok.inj h2
      exact (Prod.mk.inj h3).2
    rw [hres, hsid]

theorem login_challengeCookie_run (H : Bytes → Bytes) (hlen : ∀ x, (H x).length ≤ 64) :
    IsLoginResponse cfgIntrexx netChallengeCookie []
      (login H cfgIntrexx netChallengeCookie (str "u") (str "p") []) respOk ∧
    (login H cfgIntrexx netChallengeCookie (str "u") (str "p") []).2 = .ok (str "abc") := by
  obtain ⟨digest, _, hprep⟩ :=
    login_challenge_run H hlen cfgIntrexx rfl netChallengeCookie (str "u") (str "p") []
      (by decide) respChallenge rfl
  obtain ⟨h1, _, h3⟩ :=
    login_of_prepare_ok H cfgIntrexx netChallengeCookie (str "u") (str "p") [] _ _ _ hprep
      (by decide)
  have hok : netChallengeCookie.Do ([] ++ [challengeRequest cfgIntrexx (str "u")])
      (loginRequest cfgIntrexx
        (Base64.EncodeToString
          (str "u" ++ str ":" ++ Strings.ToUpper (Hex.EncodeToString digest)))
        (cookieOf respChallenge))
      = .ok respOk := rfl
  refine ⟨⟨[challengeRequest cfgIntrexx (str "u")], _, h1, loginRequest_url _ _ _, hok⟩, ?_⟩
  rw [h3 _ hok]
  have h401 : ¬ respOk.StatusCode = 401 := by decide
  have h200 : ¬ respOk.StatusCode ≠ 200 := by decide
  rw [if_neg h401, if_neg h200]
  rfl

/-- C5, refuted: the server sets `co_SId=abc` with the challenge response and
answers the login request with status 200 and no cookie. For every 20-byte
hash the login response is that cookie-less 200, its captured `co_SId` is
empty, and `login` returns `abc`, the id captured from the challenge
response. -/
theorem login_keeps_challenge_session :
    netChallengeCookie.Do [] (challengeRequest cfgIntrexx (str "u")) = .ok respChallenge ∧
    (∀ H : Bytes → Bytes, (∀ x, (H x).length = 20) →
      IsLoginResponse cfgIntrexx netChallengeCookie []
        (login H cfgIntrexx netChallengeCookie (str "u") (str "p") []) respOk ∧
      (login H cfgIntrexx netChallengeCookie (str "u") (str "p") []).2 = .ok (str "abc") ∧
      (login H cfgIntrexx netChallengeCookie (str "u") (str "p") []).2
        ≠ .ok (cookieOf respOk)) ∧
    cookieOf respOk = [] := by
  refine ⟨rfl, ?_, rfl⟩
  intro H hH
  have hrun := login_challengeCookie_run H (fun x => by rw [hH x]; decide)
  refine ⟨hrun.1, hrun.2, ?_⟩
  rw [hrun.2]
  intro h
  have h2 := Except.ok.inj h
  revert h2
  decide

/-- C5, amended: in challenge mode (hash output at most 64 bytes), when the
challenge request is answered with `cresp` and the login request with a
status-200 `resp`, `login` returns the value of the last `co_SId` cookie of
`resp` if `resp` has such a cookie, and otherwise the session id captured
from `cresp` (empty if `cresp` has none either). -/
theorem login_session_id (H : Bytes → Bytes) (hlen : ∀ x, (H x).length ≤ 64) (cfg : Config)
    (hmode : cfg.auth_type = str "intrexx") (net : Net) (username pwd : Bytes) (tr : Trace)
    (cresp : Response) (hch : net.Do tr (challengeRequest cfg username) = .ok cresp)
    (resp : Response)
    (hresp : IsLoginResponse cfg net tr (login H cfg net username pwd tr) resp)
    (h200 : resp.StatusCode = 200) :
    ((∃ c ∈ resp.cookies, c.Name = str "co_SId") →
      (login H cfg net username pwd tr).2 = .ok (cookieOf resp)) ∧
    ((∀ c ∈ resp.cookies, c.Name ≠ str "co_SId") →
      (login H cfg net username pwd tr).2 = .ok (cookieOf cresp)) := by
  have hres := isLoginResponse_challenge H hlen cfg hmode net username pwd tr cresp hch
    resp hresp
  have h401 : ¬ resp.StatusCode = 401 := by rw [h200]; decide
  rw [if_neg h401, if_neg (not_not.mpr h200)] at hres
  constructor
  · intro hmem
    rw [hres, captureCookie_of_mem resp.cookies hmem (cookieOf cresp) []]
    rfl
  · intro hnot
    rw [hres, captureCookie_of_not_mem resp.cookies hnot]

/-- Witness of the amended C5: the server of the counterexample. -/
theorem login_session_id_witness :
    (∀ x, (Ksh.toyHash x).length ≤ 64) ∧ cfgIntrexx.auth_type = str "intrexx" ∧
    netChallengeCookie.Do [] (challengeRequest cfgIntrexx (str "u")) = .ok respChallenge ∧
    IsLoginResponse cfgIntrexx netChallengeCookie []
      (login Ksh.toyHash cfgIntrexx netChallengeCookie (str "u") (str "p") []) respOk ∧
    respOk.StatusCode = 200 ∧
    ((∃ c ∈ respOk.cookies, c.Name = str "co_SId") →
      (login Ksh.toyHash cfgIntrexx netChallengeCookie (str "u") (str "p") []).2
        = .ok (cookieOf respOk)) ∧
    ((∀ c ∈ respOk.cookies, c.Name ≠ str "co_SId") →
      (login Ksh.toyHash cfgIntrexx netChallengeCookie (str "u") (str "p") []).2
        = .ok (cookieOf respChallenge)) :=
  ⟨Ksh.toyHash_le, rfl, rfl, (login_challengeCookie_run Ksh.toyHash Ksh.toyHash_le).1, rfl,
    login_session_id Ksh.toyHash Ksh.toyHash_le cfgIntrexx rfl netChallengeCookie
      (str "u") (str "p") [] _ rfl respOk
      (login_challengeCookie_run Ksh.toyHash Ksh.toyHash_le).1 rfl⟩

theorem login_challenge_down (H : Bytes → Bytes) (cfg : Config)
    (hmode : cfg.auth_type = str "intrexx") (net : Net) (username pwd : Bytes) (tr : Trace)
    (hcb : net.accepts (str "GET") (cfg.serviceUrl ++ str "/$challenge") = true)
    (e : Bytes) (hch : net.Do tr (challengeRequest cfg username) = .error e) :
    login H cfg net username pwd tr
      = (tr ++ [challengeRequest cfg username], .error (.transport e)) :=
  login_of_prepare_error H cfg net username pwd tr _ _
    (loginPrepare_challenge_error H cfg net username pwd tr hmode hcb e hch)

theorem login_challenge_unbuilt (H : Bytes → Bytes) (cfg : Config)
    (hmode : cfg.auth_type = str "intrexx") (net : Net) (username pwd : Bytes) (tr : Trace)
    (hcb : net.accepts (str "GET") (cfg.serviceUrl ++ str "/$challenge") = false) :
    login H cfg net username pwd tr = (tr, .error .panic) :=
  login_of_prepare_error H cfg net username pwd tr _ _
    (loginPrepare_challenge_rejected H cfg net username pwd tr hmode hcb)

theorem login_other_issued (H : Bytes → Bytes) (cfg : Config)
    (hmode : cfg.auth_type ≠ str "intrexx") (net : Net) (username pwd : Bytes)
    (tr issued : Trace) (hi : (login H cfg net username pwd tr).1 = tr ++ issued) :
    ∀ req ∈ issued, req.url = cfg.serviceUrl ++ str "/" := by
  obtain ⟨a, ha⟩ := loginPrepare_other H cfg net username pwd tr hmode
  cases hacc : net.accepts (str "GET") (cfg.serviceUrl ++ str "/") with
  | false =>
    rw [login_of_prepare_rejected H cfg net username pwd tr _ a [] ha hacc] at hi
    have h2 : tr ++ [] = tr ++ issued := by simpa using hi
    have h3 := append_eq_self_append tr issued [] h2
    intro req hreq
    rw [h3] at hreq
    simp at hreq
  | true =>
    rw [(login_of_prepare_ok H cfg net username pwd tr _ a [] ha hacc).1] at hi
    have h3 := append_eq_self_append tr issued _ hi
    intro req hreq
    rw [h3, List.mem_singleton] at hreq
    rw [hreq]
    exact loginRequest_url cfg a []

/-- C9, refuted: in challenge mode, against a server whose calls fail in
transport, `login` issues the `$challenge` request and nothing else,
whatever the hash: the run ends in `log.Fatal` and no login request to
`{serviceUrl}/` is made. And for a service root with a blank in the host,
for which `http.NewRequest` returns no request, `login` issues no request at
all. -/
theorem login_challenge_without_login_request :
    cfgIntrexx.auth_type = str "intrexx" ∧
    netDown.accepts (str "GET") (cfgIntrexx.serviceUrl ++ str "/$challenge") = true ∧
    netDown.accepts (str "GET") (cfgIntrexx.serviceUrl ++ str "/") = true ∧
    (∀ H : Bytes → Bytes,
      login H cfgIntrexx netDown (str "u") (str "p") []
        = ([challengeRequest cfgIntrexx (str "u")],
            .error (.transport (str "connection refused")))) ∧
    (challengeRequest cfgIntrexx (str "u")).url = cfgIntrexx.serviceUrl ++ str "/$challenge" ∧
    (challengeRequest cfgIntrexx (str "u")).url ≠ cfgIntrexx.serviceUrl ++ str "/" ∧
    cfgBlankHost.auth_type = str "intrexx" ∧
    netDown.accepts (str "GET") (cfgBlankHost.serviceUrl ++ str "/$challenge") = false ∧
    netDown.accepts (str "GET") (cfgBlankHost.serviceUrl ++ str "/") = false ∧
    (∀ H : Bytes → Bytes,
      login H cfgBlankHost netDown (str "u") (str "p") [] = ([], .error .panic)) :=
  ⟨rfl, by decide, by decide,
    fun H => login_challenge_down H cfgIntrexx rfl netDown (str "u") (str "p") [] (by decide) _ rfl,
    rfl, url_login_ne_challenge cfgIntrexx.serviceUrl, rfl, by decide, by decide,
    fun H => login_challenge_unbuilt H cfgBlankHost rfl netDown (str "u") (str "p") []
      (by decide)⟩

/-- C9, amended: with every call recorded in the trace (hash output at most
64 bytes), one call of `login` outside challenge mode (basic or none) issues
no request to `{serviceUrl}/$challenge`; in challenge mode, when
`http.NewRequest` returns requests for `{serviceUrl}/$challenge` and
`{serviceUrl}/`, it issues exactly one request to `{serviceUrl}/$challenge`,
followed by exactly one login request to `{serviceUrl}/` when the challenge
request is answered, and by no request when the challenge request fails in
transport. -/
theorem login_requests (H : Bytes → Bytes) (hlen : ∀ x, (H x).length ≤ 64) (cfg : Config)
    (net : Net) (username pwd : Bytes) (tr : Trace) :
    (cfg.auth_type ≠ str "intrexx" →
      ∀ issued, (login H cfg net username pwd tr).1 = tr ++ issued →
        ∀ req ∈ issued, req.url ≠ cfg.serviceUrl ++ str "/$challenge") ∧
    (cfg.auth_type = str "intrexx" →
      net.accepts (str "GET") (cfg.serviceUrl ++ str "/$challenge") = true →
      net.accepts (str "GET") (cfg.serviceUrl ++ str "/") = true →
      (∀ cresp, net.Do tr (challengeRequest cfg username) = .ok cresp →
        ∃ req, (login H cfg net username pwd tr).1
            = tr ++ [challengeRequest cfg username, req] ∧
          req.url = cfg.serviceUrl ++ str "/" ∧
          req.url ≠ cfg.serviceUrl ++ str "/$challenge") ∧
      (∀ e, net.Do tr (challengeRequest cfg username) = .error e →
        (login H cfg net username pwd tr).1 = tr ++ [challengeRequest cfg username])) ∧
    (challengeRequest cfg username).url = cfg.serviceUrl ++ str "/$challenge" := by
  refine ⟨?_, ?_, rfl⟩
  · intro hmode issued hi req hreq
    rw [login_other_issued H cfg hmode net username pwd tr issued hi req hreq]
    exact (url_login_ne_challenge cfg.serviceUrl).symm
  · intro hmode hcb hlb
    refine ⟨?_, ?_⟩
    · intro cresp hch
      obtain ⟨digest, _, hprep⟩ :=
        login_challenge_run H hlen cfg hmode net username pwd tr hcb cresp hch
      refine ⟨loginRequest cfg
          (Base64.EncodeToString
            (username ++ str ":" ++ Strings.ToUpper (Hex.EncodeToString digest)))
          (cookieOf cresp), ?_, loginRequest_url cfg _ _, ?_⟩
      · rw [(login_of_prepare_ok H cfg net username pwd tr _ _ _ hprep hlb).1]
        simp
      · rw [loginRequest_url]
        exact (url_login_ne_challenge cfg.serviceUrl).symm
    · intro e hch
      rw [login_challenge_down H cfg hmode net username pwd tr hcb e hch]

/-- Witness of the amended C9: the stand-in hash, challenge mode, a server
that answers both calls. -/
theorem login_requests_witness :
    (∀ x, (Ksh.toyHash x).length ≤ 64) ∧
    cfgIntrexx.auth_type = str "intrexx" ∧
    netChallengeCookie.accepts (str "GET") (cfgIntrexx.serviceUrl ++ str "/$challenge") = true ∧
    netChallengeCookie.accepts (str "GET") (cfgIntrexx.serviceUrl ++ str "/") = true ∧
    netChallengeCookie.Do [] (challengeRequest cfgIntrexx (str "u")) = .ok respChallenge ∧
    ((cfgIntrexx.auth_type ≠ str "intrexx" →
      ∀ issued,
        (login Ksh.toyHash cfgIntrexx netChallengeCookie (str "u") (str "p") []).1
          = [] ++ issued →
        ∀ req ∈ issued, req.url ≠ cfgIntrexx.serviceUrl ++ str "/$challenge") ∧
    (cfgIntrexx.auth_type = str "intrexx" →
      netChallengeCookie.accepts (str "GET") (cfgIntrexx.serviceUrl ++ str "/$challenge")
        = true →
      netChallengeCookie.accepts (str "GET") (cfgIntrexx.serviceUrl ++ str "/") = true →
      (∀ cresp, netChallengeCookie.Do [] (challengeRequest cfgIntrexx (str "u")) = .ok cresp →
        ∃ req, (login Ksh.toyHash cfgIntrexx netChallengeCookie (str "u") (str "p") []).1
            = [] ++ [challengeRequest cfgIntrexx (str "u"), req] ∧
          req.url = cfgIntrexx.serviceUrl ++ str "/" ∧
          req.url ≠ cfgIntrexx.serviceUrl ++ str "/$challenge") ∧
      (∀ e, netChallengeCookie.Do [] (challengeRequest cfgIntrexx (str "u")) = .error e →
        (login Ksh.toyHash cfgIntrexx netChallengeCookie (str "u") (str "p") []).1
          = [] ++ [challengeRequest cfgIntrexx (str "u")])) ∧
    (challengeRequest cfgIntrexx (str "u")).url = cfgIntrexx.serviceUrl ++ str "/$challenge") :=
  ⟨Ksh.toyHash_le, rfl, by decide, by decide, rfl,
    login_requests Ksh.toyHash Ksh.toyHash_le cfgIntrexx netChallengeCookie
      (str "u") (str "p") []⟩

theorem sanitizeCookieValue_of_valid (s : Bytes)
    (h : ∀ b ∈ s, validCookieValueByte b = true ∧ b ≠ 32 ∧ b ≠ 44) :
    sanitizeCookieValue s = s := by
  have hf : s.filter validCookieValueByte = s :=
    List.filter_eq_self.mpr (fun b hb => (h b hb).1)
  have h32 : s.contains 32 = false := by
    rw [Bool.eq_false_iff]
    intro hc
    have hm : 32 ∈ s := by simpa using hc
    exact (h 32 hm).2.1 rfl
  have h44 : s.contains 44 = false := by
    rw [Bool.eq_false_iff]
    intro hc
    have hm : 44 ∈ s := by simpa using hc
    exact (h 44 hm).2.2 rfl
  simp only [sanitizeCookieValue, hf, h32, h44]
  by_cases hs : s = [] <;> simp [hs]

theorem logoutRequest_eq (cfg : Config) (sessionId : Bytes) :
    logoutRequest cfg sessionId
      = { method := str "GET", url := cfg.serviceUrl ++ str "/$logout",
          header := [(str "Cookie", str "co_SId=" ++ sanitizeCookieValue sessionId)] } := by
  have hn : sanitizeCookieName (str "co_SId") ++ str "=" = str "co_SId=" := by decide
  simp only [logoutRequest, AddCookie, headerGet, headerSet, List.find?_nil, List.filter_nil,
    List.nil_append, if_true, hn]

theorem logout_accepted (cfg : Config) (net : Net) (sessionId : Bytes) (tr : Trace)
    (hs : sessionId ≠ [])
    (hacc : net.accepts (str "GET") (cfg.serviceUrl ++ str "/$logout") = true) :
    (logout cfg net sessionId tr).1 = tr ++ [logoutRequest cfg sessionId] := by
  simp only [logout, if_neg hs, NewRequest, hacc, if_true]
  change (match net.Do tr (logoutRequest cfg sessionId) with
    | .error e => (tr ++ [logoutRequest cfg sessionId], Except.error (Fatal.transport e))
    | .ok _ => (tr ++ [logoutRequest cfg sessionId], Except.ok ())).1 = _
  cases net.Do tr (logoutRequest cfg sessionId) <;> rfl

/-- C10, refuted: `logout("a;b")` issues one request whose `Cookie` header
is `co_SId=ab`, not `co_SId=a;b`: `AddCookie` drops the `;`. And for a
service root with a blank in the host, for which `http.NewRequest` returns
no request, `logout("abc")` panics and issues no request. -/
theorem logout_sanitises_session_id :
    netDown.accepts (str "GET") (cfgBasic.serviceUrl ++ str "/$logout") = true ∧
    (logout cfgBasic netDown (str "a;b") []).1
      = [{ method := str "GET", url := str "http://h/s.svc/$logout",
           header := [(str "Cookie", str "co_SId=ab")] }] ∧
    str "co_SId=ab" ≠ str "co_SId=a;b" ∧
    netDown.accepts (str "GET") (cfgBlankHost.serviceUrl ++ str "/$logout") = false ∧
    logout cfgBlankHost netDown (str "abc") [] = ([], .error .panic) :=
  ⟨by decide, by decide, by decide, by decide, rfl⟩

/-- C10, amended: with every call recorded in the trace, `logout` with an
empty session id issues no request, and when `http.NewRequest` returns the
request for `{serviceUrl}/$logout`, `logout(s)` with a non-empty `s` issues
exactly one request: a GET to `{serviceUrl}/$logout` whose `Cookie` header is
`co_SId=` followed by `s` as `AddCookie` sanitises it; that is `co_SId=s`
when `s` has only valid cookie-value bytes and neither blank nor comma, and
`logout("abc")` carries `Cookie: co_SId=abc`. -/
theorem logout_requests (cfg : Config) (net : Net) (tr : Trace)
    (hacc : net.accepts (str "GET") (cfg.serviceUrl ++ str "/$logout") = true) :
    (logout cfg net [] tr).1 = tr ∧
    (∀ s, s ≠ [] →
      (logout cfg net s tr).1
        = tr ++ [{ method := str "GET", url := cfg.serviceUrl ++ str "/$logout",
                   header := [(str "Cookie", str "co_SId=" ++ sanitizeCookieValue s)] }]) ∧
    (∀ s, (∀ b ∈ s, validCookieValueByte b = true ∧ b ≠ 32 ∧ b ≠ 44) →
      sanitizeCookieValue s = s) ∧
    (logout cfg net (str "abc") tr).1
      = tr ++ [{ method := str "GET", url := cfg.serviceUrl ++ str "/$logout",
                 header := [(str "Cookie", str "co_SId=abc")] }] := by
  have hmain : ∀ s, s ≠ [] →
      (logout cfg net s tr).1
        = tr ++ [{ method := str "GET", url := cfg.serviceUrl ++ str "/$logout",
                   header := [(str "Cookie", str "co_SId=" ++ sanitizeCookieValue s)] }] := by
    intro s hs
    rw [logout_accepted cfg net s tr hs hacc, logoutRequest_eq]
  refine ⟨by simp [logout], hmain, sanitizeCookieValue_of_valid, ?_⟩
  have habc : str "co_SId=" ++ sanitizeCookieValue (str "abc") = str "co_SId=abc" := by decide
  rw [hmain (str "abc") (by decide), habc]

/-- Witness of the amended C10: the sample service root, whose `$logout` URL
`http.NewRequest` accepts. -/
theorem logout_requests_witness :
    netDown.accepts (str "GET") (cfgBasic.serviceUrl ++ str "/$logout") = true ∧
    (logout cfgBasic netDown [] []).1 = [] ∧
    (∀ s, s ≠ [] →
      (logout cfgBasic netDown s []).1
        = [] ++ [{ method := str "GET", url := cfgBasic.serviceUrl ++ str "/$logout",
                   header := [(str "Cookie", str "co_SId=" ++ sanitizeCookieValue s)] }]) ∧
    (∀ s, (∀ b ∈ s, validCookieValueByte b = true ∧ b ≠ 32 ∧ b ≠ 44) →
      sanitizeCookieValue s = s) ∧
    (logout cfgBasic netDown (str "abc") []).1
      = [] ++ [{ method := str "GET", url := cfgBasic.serviceUrl ++ str "/$logout",
                 header := [(str "Cookie", str "co_SId=abc")] }] :=
  ⟨by decide, logout_requests cfgBasic netDown [] (by decide)⟩

end Oget
